import Mathlib

/-!
Verification development for the will-gpt repository.

This file gives a shallow embedding, in Lean 4, of the parts of the
repository that the specification's claims are about:

* the paired-turn normalizer (`src/parsers/claude_parser.py`),
* the tree-structured normalizer (`src/parsers/chatgpt_parser.py`),
* the multi-entity project normalizer (`src/parsers/claude_projects_parser.py`),
* collection serialization (`src/parsers/universal_format.py`),
* format detection (`src/parsers/base_parser.py`),
* the retrieval dispatcher's filter builder, date parsing, hybrid fusion
  and MMR re-ranking (`src/api/search_service.py`).

Modelling conventions, used throughout:

* Python floats are modelled as exact rationals (`ℚ`); the code only
  compares and adds/multiplies scores and timestamps, and every concrete
  input used below is exactly representable.
* JSON values are modelled by the inductive type `JVal`; Python `dict`s
  with string keys are association lists in insertion order.  Python
  truthiness is modelled by `jTruthy`.
* Nondeterministically generated fields (`uuid.uuid4()` chunk ids) and the
  wall clock (`datetime.now()`) are not values the claims are about: chunk
  ids are omitted from the embedded record, and `datetime.now()` is
  modelled by the distinguished timestamp `PyTime.now`.
-/

namespace WillGpt

/-- JSON-like values, the payloads found in the export files and in chunk
metadata (`Dict[str, Any]` in the Python source).  Objects are association
lists of string keys in insertion order, as Python 3.7+ dicts are. -/
inductive JVal where
  | str (s : String)
  | num (q : ℚ)
  | boolean (b : Bool)
  | null
  | arr (elems : List JVal)
  | obj (fields : List (String × JVal))

/-- Python truthiness of a JSON-like value: `None`, `False`, `0`, `""`,
`[]` and an empty dict are falsy, everything else is truthy. -/
def jTruthy : JVal → Bool
  | .str s => !(s == "")
  | .num q => !(q == 0)
  | .boolean b => b
  | .null => false
  | .arr elems => !elems.isEmpty
  | .obj fields => !fields.isEmpty

/-- Lookup of a string key in a JSON object's field list, modelling
`d[k]` / `d.get(k)` on a Python dict (keys of a dict are unique, so the
first match is the binding). -/
def lookupJ (k : String) : List (String × JVal) → Option JVal
  | [] => none
  | (k', v) :: rest => if k' == k then some v else lookupJ k rest

/-- Python `str(x)` for a JSON-like value, as far as the claims need it:
`str` of a string is itself, `None` renders as `"None"`, booleans as
`"True"`/`"False"`.  The exact renderings of numbers, lists and dicts are
not modelled (no claim depends on them); what matters below is that
`str(x)` is the empty string only when `x` is the empty string, which the
placeholders preserve. -/
def pyStr : JVal → String
  | .str s => s
  | .null => "None"
  | .boolean true => "True"
  | .boolean false => "False"
  | .num _ => "<number>"
  | .arr _ => "<list>"
  | .obj _ => "<dict>"

/-- Python `'\n'.join(parts)`. -/
def joinNl : List String → String
  | [] => ""
  | [s] => s
  | s :: rest => s ++ "\n" ++ joinNl rest

/-- Emptiness of an optional message string: the `if not user_content`
style checks in the source treat both `None` and `""` as empty. -/
def msgEmpty : Option String → Bool
  | none => true
  | some s => s == ""

/-- Timestamp value attached to a chunk.  `PyTime.now` stands for the
wall-clock value `datetime.now()`, `PyTime.stamp t` for a concrete point
in time (epoch seconds), `PyTime.unset` for Python `None`. -/
inductive PyTime where
  | unset
  | now
  | stamp (t : ℚ)

/-- The canonical record `UniversalChunk` of `src/parsers/universal_format.py`,
parameterized by the type `V` of JSON-like metadata values (the parsers
instantiate `V := JVal`).  The `chunk_id` field — a fresh `uuid.uuid4()`
string — is nondeterministically generated and is omitted; no claim is
about its value.  Defaults mirror the dataclass defaults after
`__post_init__` replaced `None` mappings by empty ones. -/
structure UChunk (V : Type) where
  conversation_id : String
  platform : String
  timestamp : PyTime
  conversation_start : Option PyTime := none
  user_message : Option String := none
  assistant_message : Option String := none
  user_message_type : Option String := none
  assistant_message_type : Option String := none
  ai_interpretations : List (String × V) := []
  system_context : List (String × V) := []
  tool_usage : List (List (String × V)) := []
  turn_number : Nat := 0
  has_branches : Bool := false
  parent_chunk_id : Option String := none
  child_chunk_ids : List String := []
  conversation_title : String := "Untitled"
  user_confidence : Option String := none
  assistant_model : Option String := none
  raw_metadata : List (String × V) := []

namespace ClaudeParser

/-!
Embedding of `src/parsers/claude_parser.py` (the paired-turn normalizer).
-/

/-- A raw message dict of a Claude conversation.  The four candidate
content fields mirror the fallback chain in `_extract_message_content`
(`content` / `text` / `message` / `body`); `none` models an absent key.
The `sender` field records the turn's role; note that the source never
reads it — it is carried here so that role-based properties can be
stated.  `tsField` is the timestamp `_extract_timestamp` would return for
this message (that helper's field-name fallback and ISO/epoch parsing are
condensed into the already-extracted optional value, which no claim
inspects).  `role` and `thinking`/`metadata` feed
`extract_system_context` and `extract_ai_interpretations`. -/
structure ClaudeMsg where
  sender : String := ""
  content : Option JVal := none
  text : Option JVal := none
  message : Option JVal := none
  body : Option JVal := none
  msgType : Option String := none
  tsField : Option ℚ := none
  role : Option String := none
  thinking : Option JVal := none
  metadata : List (String × JVal) := []

/-- Text of one content block: a dict block contributes its `text` value
(default `""`), any other block contributes `str(block)`.  A non-string
`text` value would make Python's `'\n'.join` raise; such inputs are
outside the modelled domain and are rendered via `pyStr`. -/
def blockText : JVal → String
  | .obj fields =>
    match lookupJ "text" fields with
    | some v => pyStr v
    | none => ""
  | v => pyStr v

/-- Resolution of the `content or text or message or body-default` chain
of `_extract_message_content`: the first truthy candidate, else the value
of `body` (Python `or` yields its last operand when all are falsy), else
`""`. -/
def contentChain (m : ClaudeMsg) : JVal :=
  match m.content with
  | some v =>
    if jTruthy v then v else
      match m.text with
      | some w =>
        if jTruthy w then w else
          match m.message with
          | some x =>
            if jTruthy x then x else (m.body.getD (.str ""))
          | none => m.body.getD (.str "")
      | none =>
        match m.message with
        | some x =>
          if jTruthy x then x else (m.body.getD (.str ""))
        | none => m.body.getD (.str "")
  | none =>
    match m.text with
    | some w =>
      if jTruthy w then w else
        match m.message with
        | some x =>
          if jTruthy x then x else (m.body.getD (.str ""))
        | none => m.body.getD (.str "")
    | none =>
      match m.message with
      | some x =>
        if jTruthy x then x else (m.body.getD (.str ""))
      | none => m.body.getD (.str "")

/-- Embedding of `ClaudeParser._extract_message_content`: resolve the
content field chain, then join list content block-wise with newlines,
otherwise apply `str`. -/
def extractMessageContent (m : ClaudeMsg) : String :=
  match contentChain m with
  | .arr blocks => joinNl (blocks.map blockText)
  | v => pyStr v

/-- Embedding of `ClaudeParser.extract_ai_interpretations` applied to the
assistant message: collects `thinking` from the message itself and
`reasoning` / `user_model` from its metadata, in that insertion order. -/
def extractAiInterpretations (m : ClaudeMsg) : List (String × JVal) :=
  (match m.thinking with
   | some v => [("thinking", v)]
   | none => []) ++
  (match lookupJ "reasoning" m.metadata with
   | some v => [("reasoning", v)]
   | none => []) ++
  (match lookupJ "user_model" m.metadata with
   | some v => [("user_model", v)]
   | none => [])

/-- Embedding of `ClaudeParser.extract_system_context` applied to the
user message: a `system_prompt` entry when the message's `role` is
`"system"`, then `system_instructions` from the metadata if present. -/
def extractSystemContext (m : ClaudeMsg) : List (String × JVal) :=
  (if m.role == some "system" then
     [("system_prompt", m.content.getD (.str ""))]
   else []) ++
  (match lookupJ "system_instructions" m.metadata with
   | some v => [("system_instructions", v)]
   | none => [])

/-- Embedding of `ClaudeParser._create_chunk_from_messages`: extract both
contents; return `none` (no chunk) when either is empty; otherwise build
the chunk.  The chunk's timestamp is the user message's timestamp, with
`datetime.now()` as the fallback.  The raw message dicts stored under
`raw_metadata` are opaque debug payload and are modelled as an empty
mapping. -/
def createChunkFromMessages (userMsg assistantMsg : ClaudeMsg)
    (convId title : String) (turnNumber : Nat) : Option (UChunk JVal) :=
  let userContent := extractMessageContent userMsg
  let assistantContent := extractMessageContent assistantMsg
  if userContent == "" || assistantContent == "" then
    none
  else
    some {
      conversation_id := convId
      platform := "claude"
      timestamp := match userMsg.tsField with
        | some t => .stamp t
        | none => .now
      user_message := some userContent
      user_message_type := some (userMsg.msgType.getD "text")
      assistant_message := some assistantContent
      assistant_message_type := some (assistantMsg.msgType.getD "text")
      ai_interpretations := extractAiInterpretations assistantMsg
      system_context := extractSystemContext userMsg
      turn_number := turnNumber
      conversation_title := title
      raw_metadata := [] }

/-- The loop body of `ClaudeParser._parse_conversation`: the loop
`for i in range(0, len(messages), 2)` pairs `messages[i]` with
`messages[i+1]`, skips the pair when the second index is out of range
(`if user_msg and assistant_msg`), and increments `turn_number` only
when a chunk was produced.  Note that the sender roles of the paired
messages are never consulted.  The source's truthiness test also skips a
pair holding an empty dict; such an element maps here to a `ClaudeMsg`
with every field absent, whose extracted content is empty, so the pair
produces no chunk either way. -/
def parsePairs : List ClaudeMsg → Nat → List (UChunk JVal)
  | [], _ => []
  | [_], _ => []
  | userMsg :: assistantMsg :: rest, turnNumber =>
    match createChunkFromMessages userMsg assistantMsg "conv" "title" turnNumber with
    | some c => c :: parsePairs rest (turnNumber + 1)
    | none => parsePairs rest turnNumber

/-- A Claude conversation for `_parse_conversation`: its id and title and
the flat ordered message list (`messages` / `turns` / `exchanges` — the
field-name fallback is condensed into one list). -/
structure ClaudeConv where
  id : String := ""
  title : String := "Untitled"
  messages : List ClaudeMsg := []

/-- The loop body of `_parse_conversation` with the conversation's own id
and title (the generic `parsePairs` above fixes them for statements that
do not mention them). -/
def parsePairsIn (convId title : String) :
    List ClaudeMsg → Nat → List (UChunk JVal)
  | [], _ => []
  | [_], _ => []
  | userMsg :: assistantMsg :: rest, turnNumber =>
    match createChunkFromMessages userMsg assistantMsg convId title turnNumber with
    | some c => c :: parsePairsIn convId title rest (turnNumber + 1)
    | none => parsePairsIn convId title rest turnNumber

/-- Embedding of `ClaudeParser._parse_conversation`: chunks for one
conversation, pairing the message list two at a time starting at turn 0. -/
def parseConversation (conv : ClaudeConv) : List (UChunk JVal) :=
  parsePairsIn conv.id conv.title conv.messages 0

end ClaudeParser

namespace ChatGPTParser

/-!
Embedding of `src/parsers/chatgpt_parser.py` (the tree-structured
normalizer).
-/

/-- Python `str.strip()`: leading and trailing whitespace removed. -/
def pyStrip (s : String) : String :=
  ⟨((s.data.dropWhile Char.isWhitespace).reverse.dropWhile Char.isWhitespace).reverse⟩

/-- A raw message object inside a mapping node.  Field defaults mirror the
`.get` defaults in `_extract_message_data` (`author.role` defaults to
`"unknown"`, `content_type` to `"text"`, `parts` to `[]`).  `create_time`
is epoch seconds; the corner case of a literal `0` create time (which the
source leaves as a raw number instead of a `datetime`) is simply the value
`0` here. -/
structure RawMsg where
  author_role : String := "unknown"
  content_type : String := "text"
  parts : List JVal := []
  create_time : Option ℚ := none
  metadata : List (String × JVal) := []
  children : List String := []

/-- A node of the conversation mapping: an optional message (absent or
falsy `message` values are `none`), a parent reference and child ids. -/
structure GNode where
  message : Option RawMsg := none
  parent : Option String := none
  children : List String := []

/-- Lookup of a node id in the mapping (`node_id in mapping` /
`mapping[node_id]`). -/
def lookupNode : List (String × GNode) → String → Option GNode
  | [], _ => none
  | (k, v) :: rest, nodeId => if k = nodeId then some v else lookupNode rest nodeId

/-- The extracted data of one message, as `_extract_message_data` returns
it. -/
structure MsgData where
  role : String
  content : String
  content_type : String
  metadata : List (String × JVal)
  timestamp : Option ℚ
  children : List String

/-- Content assembly for `multimodal_text` parts: dict parts contribute
their `text` value (default `""`), other parts contribute `str(part)`,
all concatenated without separator. -/
def multimodalText : List JVal → String
  | [] => ""
  | part :: rest =>
    (match part with
     | .obj fields => pyStr ((lookupJ "text" fields).getD (.str ""))
     | v => pyStr v) ++ multimodalText rest

/-- Embedding of `ChatGPTParser._extract_message_data`: assemble the
content from the parts (joining truthy parts with newlines for ordinary
content, concatenating text for multimodal content), strip it, and carry
the role, content type, metadata, timestamp and children along. -/
def extractMessageData (m : RawMsg) : MsgData :=
  let content :=
    if m.parts.isEmpty then ""
    else if m.content_type = "multimodal_text" then multimodalText m.parts
    else joinNl ((m.parts.filter jTruthy).map pyStr)
  { role := m.author_role
    content := pyStrip content
    content_type := m.content_type
    metadata := m.metadata
    timestamp := m.create_time
    children := m.children }

/-- Embedding of `ChatGPTParser._traverse_conversation_tree`.  The Python
source is a recursive procedure mutating a `messages` list and a
`visited` set; the sequential recursion is rendered as an explicit
worklist (children are pushed in front of the remaining work), with the
visited set threaded as a list of ids.  A node already visited, or absent
from the mapping, is skipped; otherwise it is marked visited, its message
(if any) is emitted, and its children are traversed depth-first. -/
def traverseList (mapping : List (String × GNode)) :
    List String → List String → List MsgData → List MsgData × List String
  | [], visited, msgs => (msgs, visited)
  | nodeId :: rest, visited, msgs =>
    if hv : nodeId ∈ visited then
      traverseList mapping rest visited msgs
    else
      match hl : lookupNode mapping nodeId with
      | none => traverseList mapping rest visited msgs
      | some node =>
        let msgs' := match node.message with
          | some m => msgs ++ [extractMessageData m]
          | none => msgs
        traverseList mapping (node.children ++ rest) (nodeId :: visited) msgs'
  termination_by work visited _ =>
    (((mapping.map Prod.fst).toFinset \ visited.toFinset).card, work.length)
  decreasing_by
  · apply Prod.Lex.right
    simp [Nat.lt_succ_self]
  · apply Prod.Lex.right
    simp [Nat.lt_succ_self]
  · apply Prod.Lex.left
    apply Finset.card_lt_card
    rw [List.toFinset_cons, Finset.sdiff_insert]
    apply Finset.erase_ssubset
    rw [Finset.mem_sdiff]
    have hk : ∀ (m : List (String × GNode)), lookupNode m nodeId = some node →
        nodeId ∈ m.map Prod.fst := by
      intro m
      induction m with
      | nil => intro hc; simp [lookupNode] at hc
      | cons p rest ih =>
        intro hc
        rw [lookupNode] at hc
        by_cases hp : p.1 = nodeId
        · simp [hp]
        · simp only [hp, if_false] at hc
          simp [ih hc]
    exact ⟨List.mem_toFinset.mpr (hk mapping hl),
      fun hc => hv (List.mem_toFinset.mp hc)⟩

/-- Embedding of `ChatGPTParser._extract_messages_in_order`: find the
root (the first node, in mapping order, whose parent is absent), return
no messages when there is none — or when its id is the falsy empty string
(the source tests `if not root_id:`) — and otherwise traverse from it. -/
def findRoot : List (String × GNode) → Option String
  | [] => none
  | (k, n) :: rest => if n.parent.isNone then some k else findRoot rest

def extractMessagesInOrder (mapping : List (String × GNode)) : List MsgData :=
  match findRoot mapping with
  | none => []
  | some rootId =>
    if rootId = "" then []
    else (traverseList mapping [rootId] [] []).1

/-- The pending user message held between a `user` role message and the
`assistant` role message that closes the chunk. -/
structure PendingUser where
  content : String
  messageType : String
  metadata : List (String × JVal)
  timestamp : Option ℚ

/-- The accumulated context threaded through the chunk-reduction scan:
export-wide system interpretations, the last truthy
`user_context_message_data` seen, and the tool-usage buffer. -/
structure ConvCtx where
  sysInterps : List String := []
  userCtxData : Option JVal := none
  toolUsage : List (List (String × JVal)) := []

/-- State of the chunk-reduction scan of `_parse_conversation`. -/
structure ScanState where
  pending : Option PendingUser := none
  ctx : ConvCtx := {}
  turnNumber : Nat := 0
  chunks : List (UChunk JVal) := []

/-- One step of the chunk-reduction scan of
`ChatGPTParser._parse_conversation`: `system` messages accumulate into
the running system interpretations (non-empty and not already present);
`user` messages open a pending chunk and capture a truthy
`user_context_message_data`; `assistant` messages close a pending chunk
(if one is open), then reset the pending message and the tool-usage
buffer while keeping the system interpretations and user context data;
`tool` messages append their metadata to the tool-usage buffer. -/
def scanStep (convId title : String) (st : ScanState) (msg : MsgData) : ScanState :=
  if msg.role = "system" then
    if msg.content ≠ "" ∧ msg.content ∉ st.ctx.sysInterps then
      { st with ctx := { st.ctx with sysInterps := st.ctx.sysInterps ++ [msg.content] } }
    else st
  else if msg.role = "user" then
    let st' := { st with pending := some {
      content := msg.content
      messageType := msg.content_type
      metadata := msg.metadata
      timestamp := msg.timestamp } }
    let userCtx := (lookupJ "user_context_message_data" msg.metadata).getD (.obj [])
    if jTruthy userCtx then
      { st' with ctx := { st'.ctx with userCtxData := some userCtx } }
    else st'
  else if msg.role = "assistant" then
    let closed :=
      match st.pending with
      | some pu =>
        let aiInterps : List (String × JVal) :=
          match st.ctx.userCtxData with
          | some v => if jTruthy v then [("user_context_message_data", v)] else []
          | none => []
        let sysCtx : List (String × JVal) :=
          if st.ctx.sysInterps.isEmpty then []
          else [("system_interpretations", .arr (st.ctx.sysInterps.map .str))]
        let chunk : UChunk JVal := {
          conversation_id := convId
          platform := "chatgpt"
          timestamp := match pu.timestamp with
            | some t => .stamp t
            | none => .unset
          user_message := some pu.content
          user_message_type := some pu.messageType
          assistant_message := some msg.content
          assistant_message_type := some msg.content_type
          assistant_model := match lookupJ "model_slug" msg.metadata with
            | some (.str s) => some s
            | _ => none
          ai_interpretations := aiInterps
          system_context := sysCtx
          tool_usage := st.ctx.toolUsage
          turn_number := st.turnNumber
          has_branches := msg.children.length > 1
          conversation_title := title
          raw_metadata := [("user_metadata", .obj pu.metadata),
                           ("assistant_metadata", .obj msg.metadata)] }
        { st with chunks := st.chunks ++ [chunk], turnNumber := st.turnNumber + 1 }
      | none => st
    { closed with pending := none, ctx := { closed.ctx with toolUsage := [] } }
  else if msg.role = "tool" then
    { st with ctx := { st.ctx with toolUsage := st.ctx.toolUsage ++ [msg.metadata] } }
  else st

/-- A ChatGPT conversation object: its id (defaulting, in the source, to
a fresh uuid — modelled as a plain string), title and node mapping. -/
structure GConv where
  conversation_id : String := ""
  title : String := "Untitled"
  mapping : List (String × GNode) := []

/-- Embedding of `ChatGPTParser._parse_conversation`: extract the
messages in traversal order and reduce them into chunks with the scan
above. -/
def parseConversation (conv : GConv) : List (UChunk JVal) :=
  (conv.mapping |> extractMessagesInOrder |>.foldl
    (scanStep conv.conversation_id conv.title) {}).chunks

end ChatGPTParser

namespace ClaudeProjectsParser

/-!
Embedding of `src/parsers/claude_projects_parser.py` (the multi-entity
project normalizer).
-/

/-- An attached document of a project.  `uuid` models
`doc.get('uuid', str(uuid.uuid4()))` as a plain string; `created_at` is
the value `_parse_timestamp` yields for the document (that helper returns
`None` for absent or unparseable ISO strings — ISO parsing itself is
modelled once, for the filter builder, in `parseDate` below). -/
structure PDoc where
  uuid : String := ""
  filename : String := "Untitled Document"
  content : String := ""
  created_at : Option ℚ := none

/-- One element of a Claude Projects export: the element is treated as
the user-memory record exactly when the `conversations_memory` key is
present (`some`), and as a project otherwise.  Field defaults mirror the
`.get` defaults of `_parse_project` / `_create_memory_chunk`. -/
structure PItem where
  conversations_memory : Option String := none
  account_uuid : String := ""
  uuid : String := ""
  name : String := "Untitled Project"
  description : String := ""
  prompt_template : String := ""
  is_private : Bool := false
  is_starter_project : Bool := false
  created_at : Option ℚ := none
  updated_at : Option ℚ := none
  creator_full_name : String := ""
  creator_uuid : String := ""
  docs : List PDoc := []

/-- A timestamp value as stored (isoformat string or `None`) into a
chunk's system context; epoch seconds stand in for the rendered ISO
string. -/
def tsJ : Option ℚ → JVal
  | some t => .num t
  | none => .null

/-- Embedding of `ClaudeProjectsParser._create_memory_chunk`: no chunk
when the memory text is empty (falsy), otherwise the single user-memory
chunk. -/
def createMemoryChunk (memoryContent accountUuid : String) : Option (UChunk JVal) :=
  if memoryContent = "" then none
  else some {
    conversation_id := "memory_" ++ accountUuid
    platform := "claude-projects"
    timestamp := .now
    user_message := some "User Context and Memory across all Claude conversations"
    assistant_message := some memoryContent
    user_message_type := some "memory_context"
    assistant_message_type := some "memory_content"
    ai_interpretations := [("memory_type", .str "user_context"),
                           ("account_uuid", .str accountUuid),
                           ("is_user_memory", .boolean true)]
    system_context := [("data_type", .str "conversations_memory")]
    turn_number := 0
    conversation_title := "User Memory"
    raw_metadata := [] }

/-- Embedding of `ClaudeProjectsParser._create_project_chunk`: despite
its `Optional` return annotation it always produces the overview chunk. -/
def createProjectChunk (p : PItem) : UChunk JVal :=
  let projectDescription :=
    "[PROJECT: " ++ p.name ++ "]" ++
      (if p.description ≠ "" then " " ++ p.description else "")
  let projectContent :=
    if p.prompt_template ≠ "" then p.prompt_template else "No custom instructions"
  { conversation_id := p.uuid
    platform := "claude-projects"
    timestamp := match p.created_at with
      | some t => .stamp t
      | none => .now
    user_message := some projectDescription
    assistant_message := some projectContent
    user_message_type := some "project_description"
    assistant_message_type := some "project_instructions"
    ai_interpretations := [("project_uuid", .str p.uuid),
                           ("is_private", .boolean p.is_private),
                           ("is_starter_project", .boolean p.is_starter_project),
                           ("doc_count", .num 0),
                           ("content_type", .str "project_overview")]
    system_context := [("created_at", tsJ p.created_at),
                       ("updated_at", tsJ p.updated_at),
                       ("creator_name", .str p.creator_full_name),
                       ("creator_uuid", .str p.creator_uuid)]
    turn_number := 0
    conversation_title := p.name
    raw_metadata := [] }

/-- Embedding of `ClaudeProjectsParser._create_document_chunk`: no chunk
when the document body is empty or whitespace-only after trimming (the
source tests `if not content or not content.strip()` — both cases reduce
to an empty trimmed body). -/
def createDocumentChunk (doc : PDoc) (projectUuid projectName : String)
    (projectCreatedAt : Option ℚ) : Option (UChunk JVal) :=
  if ChatGPTParser.pyStrip doc.content = "" then none
  else some {
    conversation_id := projectUuid ++ "_doc_" ++ doc.uuid
    platform := "claude-projects"
    timestamp := match doc.created_at with
      | some t => .stamp t
      | none => match projectCreatedAt with
        | some t => .stamp t
        | none => .now
    user_message := some ("[PROJECT: " ++ projectName ++ "] [DOC: " ++ doc.filename ++ "]")
    assistant_message := some doc.content
    user_message_type := some "document_reference"
    assistant_message_type := some "document_content"
    ai_interpretations := [("project_uuid", .str projectUuid),
                           ("document_uuid", .str doc.uuid),
                           ("parent_project", .str projectName),
                           ("content_type", .str "project_document")]
    system_context := [("filename", .str doc.filename),
                       ("created_at", tsJ doc.created_at)]
    turn_number := 0
    conversation_title := projectName ++ " - " ++ doc.filename
    raw_metadata := [] }

/-- Embedding of `ClaudeProjectsParser._parse_project`: the overview
chunk, followed by one chunk per document that survives the empty-body
check. -/
def parseProject (p : PItem) : List (UChunk JVal) :=
  createProjectChunk p ::
    p.docs.filterMap (fun doc => createDocumentChunk doc p.uuid p.name p.created_at)

/-- Embedding of `ClaudeProjectsParser.parse_export` on an
already-decoded list: items with a `conversations_memory` key yield (at
most) a memory chunk, all other items are parsed as projects. -/
def parseExport (data : List PItem) : List (UChunk JVal) :=
  data.flatMap (fun item =>
    match item.conversations_memory with
    | some memoryContent => (createMemoryChunk memoryContent item.account_uuid).toList
    | none => parseProject item)

end ClaudeProjectsParser

namespace UniversalFormat

/-!
Embedding of the serialization half of `src/parsers/universal_format.py`
(`ConversationCollection.save_to_json` / `load_from_json`).

The interpretation payload type is a parameter `V` with decidable
equality.  Python keys the interning table by the canonical serialization
`json.dumps(payload, sort_keys=True)` and inverts it with `json.loads`;
on JSON-representable payloads that serialization is injective and
`loads` is its inverse, so the embedding keys the table by the payload
value itself.  Python renders the reference id as the string
`f"interp_<id>"`; the rendering of the counter is injective and the
reference is only ever compared for equality and looked up, so the model
uses the counter value itself as the reference. -/

variable {V : Type} [DecidableEq V]

/-- Lookup of an interpretation payload in the interning table
(`interp_key in interpretation_map` / `interpretation_map[interp_key]`). -/
def lookupKey (k : List (String × V)) :
    List (List (String × V) × Nat) → Option Nat
  | [] => none
  | (k', r) :: rest => if k' = k then some r else lookupKey k rest

/-- Lookup of a reference id in the reverse store
(`interpretations_store.get(interp_ref, {})` without the default). -/
def lookupRef (r : Nat) : List (Nat × List (String × V)) → Option (List (String × V))
  | [] => none
  | (r', k) :: rest => if r' = r then some k else lookupRef r rest

/-- One step of the first pass of `save_to_json`: a chunk with a truthy
(non-empty) interpretation mapping interns its payload under a fresh
sequential reference if it is not present yet. -/
def internStep (st : List (List (String × V) × Nat) × Nat) (c : UChunk V) :
    List (List (String × V) × Nat) × Nat :=
  if c.ai_interpretations.isEmpty then st
  else
    match lookupKey c.ai_interpretations st.1 with
    | some _ => st
    | none => (st.1 ++ [(c.ai_interpretations, st.2)], st.2 + 1)

/-- The interning table built by the first pass of `save_to_json`. -/
def buildInterpMap (chunks : List (UChunk V)) :
    List (List (String × V) × Nat) × Nat :=
  chunks.foldl internStep ([], 0)

/-- A serialized chunk: the chunk's own fields (with the interpretation
mapping nulled out when a reference was stored) plus the optional
`ai_interpretation_ref` key. -/
structure SavedChunk (V : Type) where
  base : UChunk V
  ai_interpretation_ref : Option Nat := none

/-- Serialization of one chunk in the second pass of `save_to_json`. -/
def saveChunk (interpMap : List (List (String × V) × Nat)) (c : UChunk V) :
    SavedChunk V :=
  if c.ai_interpretations.isEmpty then { base := c }
  else
    { base := { c with ai_interpretations := [] }
      ai_interpretation_ref := lookupKey c.ai_interpretations interpMap }

/-- The persisted collection: the chunk list, the reference table, and
the metadata block.  Of the metadata only the deterministic counts are
modelled; the platform list (built through a Python `set`), the
`created_at` wall-clock instant and the human-readable savings string are
nondeterministic or display-only. -/
structure SavedData (V : Type) where
  chunks : List (SavedChunk V)
  interpretations : List (Nat × List (String × V))
  total_chunks : Nat
  unique_interpretations : Nat

/-- Embedding of `ConversationCollection.save_to_json` with
`deduplicate_interpretations=True`. -/
def saveToJson (coll : List (UChunk V)) : SavedData V :=
  let interpMap := (buildInterpMap coll).1
  { chunks := coll.map (saveChunk interpMap)
    interpretations := interpMap.map (fun p => (p.2, p.1))
    total_chunks := coll.length
    unique_interpretations := interpMap.length }

/-- Deserialization of one chunk in `load_from_json`: a stored reference
is resolved through the reference table (missing references default to
the empty mapping, as `interpretations_store.get(interp_ref, {})` does). -/
def loadChunk (store : List (Nat × List (String × V))) (sc : SavedChunk V) :
    UChunk V :=
  match sc.ai_interpretation_ref with
  | some r => { sc.base with ai_interpretations := (lookupRef r store).getD [] }
  | none => sc.base

/-- Embedding of `ConversationCollection.load_from_json`. -/
def loadFromJson (d : SavedData V) : List (UChunk V) :=
  d.chunks.map (loadChunk d.interpretations)

end UniversalFormat

namespace Registry

/-!
Embedding of `ParserRegistry.detect_parser` from
`src/parsers/base_parser.py`.
-/

/-- One registered parser, for one fixed input file: its platform name,
its declared extension list (defaulting to `['.json']`), and the Boolean
outcome of `validate_export_format` on the file under consideration (that
method returns a Bool and swallows every exception of its own, so a
registered parser's validation is a total Boolean test). -/
structure RegEntry where
  platform : String
  extensions : List String := [".json"]
  validates : Bool

/-- First pass of `detect_parser`: in registration order, each parser
whose declared extensions contain the file's extension is asked to
validate; the first success wins. -/
def detectFirstPass (fileExt : String) : List RegEntry → Option RegEntry
  | [] => none
  | e :: rest =>
    if fileExt ∈ e.extensions ∧ e.validates then some e
    else detectFirstPass fileExt rest

/-- Fallback pass of `detect_parser`: every registered parser is asked to
validate, regardless of extension. -/
def detectFallback : List RegEntry → Option RegEntry
  | [] => none
  | e :: rest => if e.validates then some e else detectFallback rest

/-- Embedding of `ParserRegistry.detect_parser`: the extension-guided
pass, then the brute-force pass, then the `ValueError`. -/
def detectParser (entries : List RegEntry) (fileExt : String) :
    Except String RegEntry :=
  match detectFirstPass fileExt entries with
  | some e => .ok e
  | none =>
    match detectFallback entries with
    | some e => .ok e
    | none => .error "No suitable parser found"

end Registry

namespace SearchService

/-!
Embedding of `src/api/search_service.py`: `_parse_date`, `_build_filter`,
the hybrid fusion of `_search_vector`, and the MMR re-ranking of
`_search_mmr`.
-/

/-- Digit characters to their value, `0` for non-digits (never reached
after an `isDigit` guard). -/
def digitVal (c : Char) : Nat := c.toNat - '0'.toNat

/-- Value of a digit run, most significant first. -/
def digitsToNat (l : List Char) : Nat :=
  l.foldl (fun acc c => acc * 10 + digitVal c) 0

/-- Value of a fractional digit run: `digits / 10 ^ length`. -/
def fracVal (l : List Char) : ℚ :=
  (digitsToNat l : ℚ) / ((10 : ℚ) ^ l.length)

/-- Exponent suffix of a Python float literal: optional sign then a
non-empty digit run, scaling the mantissa by the corresponding power of
ten. -/
def parseExp (mantissa : ℚ) (l : List Char) : Option ℚ :=
  let (negExp, l) := match l with
    | '+' :: r => (false, r)
    | '-' :: r => (true, r)
    | _ => (false, l)
  let ds := l.takeWhile Char.isDigit
  let rest := l.dropWhile Char.isDigit
  if ds.isEmpty ∨ !rest.isEmpty then none
  else
    let e := digitsToNat ds
    some (if negExp then mantissa / (10 : ℚ) ^ e else mantissa * (10 : ℚ) ^ e)

/-- Model of Python `float(str)` on the decimal forms
`[ws][sign]digits[.digits][e[sign]digits][ws]` (also `.digits` with no
integer part).  The `inf` / `nan` spellings and digit-group underscores
Python also accepts are outside the modelled domain; no claim involves
them. -/
def parsePyFloat (s : String) : Option ℚ :=
  let l := ((s.data.dropWhile Char.isWhitespace).reverse.dropWhile
    Char.isWhitespace).reverse
  let (neg, l) := match l with
    | '+' :: r => (false, r)
    | '-' :: r => (true, r)
    | _ => (false, l)
  let intPart := l.takeWhile Char.isDigit
  let l := l.dropWhile Char.isDigit
  let signed : ℚ → ℚ := fun q => if neg then -q else q
  match l with
  | [] => if intPart.isEmpty then none else some (signed (digitsToNat intPart))
  | '.' :: r =>
    let fracPart := r.takeWhile Char.isDigit
    let r := r.dropWhile Char.isDigit
    if intPart.isEmpty ∧ fracPart.isEmpty then none
    else
      let mantissa := signed ((digitsToNat intPart : ℚ) + fracVal fracPart)
      match r with
      | [] => some mantissa
      | 'e' :: r2 => parseExp mantissa r2
      | 'E' :: r2 => parseExp mantissa r2
      | _ => none
  | 'e' :: r2 =>
    if intPart.isEmpty then none else parseExp (signed (digitsToNat intPart)) r2
  | 'E' :: r2 =>
    if intPart.isEmpty then none else parseExp (signed (digitsToNat intPart)) r2
  | _ => none

/-- Whether a year is a Gregorian leap year. -/
def isLeap (y : Nat) : Bool := (y % 4 = 0 ∧ y % 100 ≠ 0) ∨ y % 400 = 0

/-- Cumulative days before the first of a month (non-leap year). -/
def daysBeforeMonth (m : Nat) : Nat :=
  [0, 0, 31, 59, 90, 120, 151, 181, 212, 243, 273, 304, 334].getD m 0

/-- Length of a month. -/
def daysInMonth (y m : Nat) : Nat :=
  if m = 2 then (if isLeap y then 29 else 28)
  else [0, 31, 28, 31, 30, 31, 30, 31, 31, 30, 31, 30, 31].getD m 0

/-- Days from 0001-01-01 to the given date (proleptic Gregorian). -/
def civilDays (y m d : Nat) : Nat :=
  365 * (y - 1) + ((y - 1) / 4 - (y - 1) / 100 + (y - 1) / 400) +
    (daysBeforeMonth m + (if 2 < m ∧ isLeap y then 1 else 0)) + (d - 1)

/-- Days from the Unix epoch 1970-01-01 to the given date (may be
negative).  `civilDays 1970 1 1 = 719162`. -/
def epochDays (y m d : Nat) : ℤ := (civilDays y m d : ℤ) - 719162

/-- Parse exactly two digits. -/
def parse2 : List Char → Option (Nat × List Char)
  | a :: b :: r =>
    if a.isDigit ∧ b.isDigit then some (digitVal a * 10 + digitVal b, r) else none
  | _ => none

/-- Parse exactly four digits. -/
def parse4 : List Char → Option (Nat × List Char)
  | a :: b :: c :: d :: r =>
    if a.isDigit ∧ b.isDigit ∧ c.isDigit ∧ d.isDigit then
      some (((digitVal a * 10 + digitVal b) * 10 + digitVal c) * 10 + digitVal d, r)
    else none
  | _ => none

/-- Parse a literal character. -/
def expectChar (c : Char) : List Char → Option (List Char)
  | x :: r => if x = c then some r else none
  | [] => none

/-- A parsed (possibly timezone-aware) datetime value, the result of
`datetime.fromisoformat`.  The fractional second is carried as its digit
run (`fracDigits / 10 ^ fracLen` seconds); `utcOffset` is the timezone
offset in seconds, `none` for a naive datetime. -/
structure PyDatetime where
  year : Nat
  month : Nat
  day : Nat
  hour : Nat := 0
  minute : Nat := 0
  second : Nat := 0
  fracDigits : Nat := 0
  fracLen : Nat := 0
  utcOffset : Option Int := none
deriving DecidableEq

/-- Parse the UTC-offset tail `HH:MM` (already past the sign), giving
the offset magnitude in seconds. -/
def parseOffsetTail (l : List Char) : Option Nat := do
  let (oh, l) ← parse2 l
  let l ← expectChar ':' l
  let (om, l) ← parse2 l
  if l.isEmpty ∧ oh ≤ 23 ∧ om ≤ 59 then some (oh * 3600 + om * 60)
  else none

/-- Parse the time-of-day tail `HH:MM[:SS[.ffff]][±HH:MM]`, giving
hour, minute, second, fractional digit run and optional offset. -/
def parseTimeTail (l : List Char) :
    Option (Nat × Nat × Nat × Nat × Nat × Option Int) := do
  let (h, l) ← parse2 l
  let l ← expectChar ':' l
  let (mi, l) ← parse2 l
  if 23 < h ∨ 59 < mi then none
  else
    let secFrac : (Nat × Nat × Nat) × List Char ←
      match l with
      | ':' :: r => do
        let (sec, r) ← parse2 r
        if 59 < sec then none
        else
          match r with
          | '.' :: r2 =>
            let ds := r2.takeWhile Char.isDigit
            let r3 := r2.dropWhile Char.isDigit
            if ds.isEmpty then none
            else some ((sec, digitsToNat ds, ds.length), r3)
          | _ => some ((sec, 0, 0), r)
      | _ => some ((0, 0, 0), l)
    let ((sec, fd, fl), l) := secFrac
    match l with
    | [] => some (h, mi, sec, fd, fl, none)
    | '+' :: r => do
      let off ← parseOffsetTail r
      some (h, mi, sec, fd, fl, some (off : Int))
    | '-' :: r => do
      let off ← parseOffsetTail r
      some (h, mi, sec, fd, fl, some (-(off : Int)))
    | _ => none

/-- Model of `datetime.fromisoformat` on the extended format
`YYYY-MM-DD[{T, }HH:MM[:SS[.ffff]][±HH:MM]]` (with field validation).
The basic (dash-less) and week-date forms `fromisoformat` additionally
accepts on Python ≥ 3.11 are outside the modelled domain; no claim
involves them. -/
def fromisoformat (s : String) : Option PyDatetime := do
  let l := s.data
  let (y, l) ← parse4 l
  let l ← expectChar '-' l
  let (mo, l) ← parse2 l
  let l ← expectChar '-' l
  let (d, l) ← parse2 l
  if y < 1 ∨ mo < 1 ∨ 12 < mo ∨ d < 1 ∨ daysInMonth y mo < d then none
  else
    match l with
    | [] => some { year := y, month := mo, day := d }
    | sep :: r =>
      if sep = 'T' ∨ sep = ' ' then do
        let (h, mi, sec, fd, fl, off) ← parseTimeTail r
        some { year := y, month := mo, day := d, hour := h, minute := mi,
               second := sec, fracDigits := fd, fracLen := fl, utcOffset := off }
      else none

/-- Model of `datetime.timestamp()` on a timezone-aware datetime — and,
composed with the `dt.replace(tzinfo=timezone.utc)` step of
`_parse_date`, on a naive one (offset `none` counts as UTC): epoch
seconds. -/
def pyTimestamp (dt : PyDatetime) : ℚ :=
  (epochDays dt.year dt.month dt.day : ℚ) * 86400 +
    ((dt.hour * 3600 + dt.minute * 60 + dt.second : Nat) : ℚ) +
    (dt.fracDigits : ℚ) / (10 : ℚ) ^ dt.fracLen -
    ((dt.utcOffset.getD 0 : Int) : ℚ)

/-- Replacement of every `Z` by `+00:00` over the characters of a string
(`ds.replace("Z", "+00:00")`). -/
def replaceZ : List Char → List Char
  | [] => []
  | c :: rest =>
    if c = 'Z' then '+' :: '0' :: '0' :: ':' :: '0' :: '0' :: replaceZ rest
    else c :: replaceZ rest

/-- Whether a string ends with `Z` (`ds.endswith("Z")`). -/
def endsWithZ (s : String) : Bool :=
  match s.data.getLast? with
  | some c => c = 'Z'
  | none => false

/-- The `Z` normalization step of `_parse_date`. -/
def normalizeZ (s : String) : String :=
  if endsWithZ s then ⟨replaceZ s.data⟩ else s

/-- Embedding of `SearchService._parse_date`: try `float(date_str)`
first; otherwise normalize a trailing `Z` to `+00:00`, parse as ISO-8601
(naive values assumed UTC) and take the epoch timestamp; any failure
raises `ValueError(f"Invalid date value: <date_str>")`. -/
def parseDate (s : String) : Except String ℚ :=
  match parsePyFloat s with
  | some q => .ok q
  | none =>
    match fromisoformat (normalizeZ s) with
    | some dt => .ok (pyTimestamp dt)
    | none => .error ("Invalid date value: " ++ s)

/-- The request filters relevant to the modelled search paths, mirroring
`SearchFilters` of `src/api/models.py`. -/
structure SearchFilters where
  platform : Option String := none
  with_interpretations : Bool := false
  date_from : Option String := none
  date_to : Option String := none
  metadata_filter : Option String := none
  limit : Nat := 10
  mmr_diversity : Option ℚ := none

/-- A Qdrant `FieldCondition` as the filter builder constructs it. -/
inductive FieldCondition where
  | matchStr (key : String) (value : String)
  | matchBool (key : String) (value : Bool)
  | rangeGte (key : String) (t : ℚ)
  | rangeLte (key : String) (t : ℚ)
deriving DecidableEq

/-- Python truthiness of an optional string field (`if filters.platform:`
— absent and empty are both falsy). -/
def optTruthy : Option String → Bool
  | some s => !(s == "")
  | none => false

/-- Split at the first `:` only (`metadata_filter.split(":", 1)` followed
by unpacking into exactly two names); `none` when the string has no
colon, in which case Python's unpacking raises a `ValueError`. -/
def splitFirstColon : List Char → Option (List Char × List Char)
  | [] => none
  | c :: rest =>
    if c = ':' then some ([], rest)
    else
      match splitFirstColon rest with
      | some (k, v) => some (c :: k, v)
      | none => none

/-- Embedding of `SearchService._build_filter`: the conjunction of the
clauses for every truthy filter field, in source order; `none` when no
clause applies.  Errors model the `ValueError`s `_parse_date` and the
metadata unpacking can raise. -/
def buildFilter (f : SearchFilters) : Except String (Option (List FieldCondition)) := do
  let c1 : List FieldCondition :=
    match f.platform with
    | some p => if p ≠ "" then [.matchStr "platform" p] else []
    | none => []
  let c2 : List FieldCondition :=
    if f.with_interpretations then [.matchBool "has_interpretations" true] else []
  let c3 : List FieldCondition ←
    match f.date_from with
    | some s =>
      if s ≠ "" then do
        let t ← parseDate s
        pure [FieldCondition.rangeGte "timestamp" t]
      else pure []
    | none => pure []
  let c4 : List FieldCondition ←
    match f.date_to with
    | some s =>
      if s ≠ "" then do
        let t ← parseDate s
        pure [FieldCondition.rangeLte "timestamp" t]
      else pure []
    | none => pure []
  let c5 : List FieldCondition ←
    match f.metadata_filter with
    | some s =>
      if s ≠ "" then
        match splitFirstColon s.data with
        | some (k, v) =>
          pure [FieldCondition.matchStr ("payload." ++ (⟨k⟩ : String)) (⟨v⟩ : String)]
        | none => .error "not enough values to unpack (expected 2, got 1)"
      else pure []
    | none => pure []
  let conds := c1 ++ c2 ++ c3 ++ c4 ++ c5
  pure (if conds.isEmpty then none else some conds)

/-- A scored hit returned by the index service, as the fusion step sees
it: a record id, a score, and the stored payload. -/
structure ScoredPoint where
  id : Nat
  score : ℚ
  payload : List (String × JVal) := []

/-- Python dict insertion (`{r.id: r for r in dense_results}`): an
existing key is overwritten in place, a new key is appended. -/
def dictInsertPoint : List (Nat × ScoredPoint) → ScoredPoint →
    List (Nat × ScoredPoint)
  | [], p => [(p.id, p)]
  | (k, q) :: rest, p =>
    if k = p.id then (k, p) :: rest else (k, q) :: dictInsertPoint rest p

/-- Dict key lookup (`result.id in combined_results`). -/
def lookupPoint (i : Nat) : List (Nat × ScoredPoint) → Option ScoredPoint
  | [] => none
  | (k, p) :: rest => if k = i then some p else lookupPoint i rest

/-- The merge step of `_search_vector`: the dense results seed the dict,
then each sparse result is added only when its id is not present yet —
so the dense hit is kept on an id collision. -/
def combineResults (dense sparse : List ScoredPoint) : List (Nat × ScoredPoint) :=
  let base := dense.foldl dictInsertPoint []
  sparse.foldl
    (fun m p => if (lookupPoint p.id m).isSome then m else m ++ [(p.id, p)]) base

/-- Stable insertion of a point into a list sorted by descending score:
the new point goes after every earlier point whose score is at least as
large, matching the stable `sorted(..., key=score, reverse=True)`. -/
def insertDescByScore (p : ScoredPoint) : List ScoredPoint → List ScoredPoint
  | [] => [p]
  | q :: rest =>
    if p.score > q.score then p :: q :: rest else q :: insertDescByScore p rest

/-- Stable sort by descending score. -/
def sortByScoreDesc (l : List ScoredPoint) : List ScoredPoint :=
  l.foldl (fun acc p => insertDescByScore p acc) []

/-- The fusion of `_search_vector` (and identically of
`search_conversations` in `src/retrieval/search_engine.py`): merge the
two hit lists by id preferring dense, sort by score descending, truncate
to the limit. -/
def hybridFuse (dense sparse : List ScoredPoint) (limit : Nat) : List ScoredPoint :=
  (sortByScoreDesc ((combineResults dense sparse).map Prod.snd)).take limit

/-- A candidate for the MMR re-ranking of `_search_mmr`: score and the
stored dense vector (`candidate.vector['dense']`; an absent or falsy
vector attribute is `none`). -/
structure MmrCand where
  id : Nat
  score : ℚ
  vector : Option (List ℚ) := none
  payload : List (String × JVal) := []

instance : Inhabited MmrCand := ⟨{ id := 0, score := 0 }⟩

/-- The diversity weight actually used:
`filters.mmr_diversity if filters.mmr_diversity else 0.5` — note that
Python truthiness sends an explicit `0.0` (like an absent value) to the
default `0.5`. -/
def diversityLambda : Option ℚ → ℚ
  | some q => if q ≠ 0 then q else 0.5
  | none => 0.5

/-- The dot product `np.dot` over rational vectors (trailing entries of
the longer vector are ignored; the vectors compared in the source have
equal length). -/
def dotProduct : List ℚ → List ℚ → ℚ
  | a :: as, b :: bs => a * b + dotProduct as bs
  | _, _ => 0

/-!
The source computes `self._cosine_similarity(v, w) = np.dot(v, w) /
(np.linalg.norm(v) * np.linalg.norm(w))`.  The Euclidean norm involves a
real square root, which has no exact executable counterpart over `ℚ`, so
the MMR functions below take the similarity function `sim` as a
parameter; every property proved about them holds for the cosine
similarity in particular.  Concrete instantiations use `dotProduct`,
which coincides with the cosine similarity whenever both vectors have
Euclidean norm 1 (as the unit vectors in the concrete inputs below do).
-/

/-- Python `max(...)` of the similarities of `v` against each selected
candidate's vector (a selected candidate without a vector contributes
`np.zeros_like(v)`), for a non-empty selected list. -/
def maxSimTo (sim : List ℚ → List ℚ → ℚ) (v : List ℚ) :
    List MmrCand → ℚ
  | [] => 0
  | s :: rest =>
    (rest.map (fun c => sim v (c.vector.getD (List.replicate v.length 0)))).foldl
      max (sim v (s.vector.getD (List.replicate v.length 0)))

/-- The MMR objective of `_search_mmr`:
`λ·relevance − (1−λ)·max_similarity`, where the maximal similarity is `0`
for a candidate without a vector or while nothing is selected. -/
def mmrScore (lam : ℚ) (sim : List ℚ → List ℚ → ℚ)
    (selected : List MmrCand) (c : MmrCand) : ℚ :=
  let maxSim : ℚ :=
    match c.vector with
    | some v => if selected.isEmpty then 0 else maxSimTo sim v selected
    | none => 0
  lam * c.score - (1 - lam) * maxSim

/-- The inner argmax loop over `enumerate(remaining)`: `best_score`
starts at `-inf` (the first candidate always wins against it), and only a
strictly greater MMR score moves `best_idx`, so ties keep the earliest
index. -/
def bestIdxAux (key : MmrCand → ℚ) : List MmrCand → ℚ → Nat → Nat → Nat
  | [], _, bi, _ => bi
  | c :: rest, best, bi, idx =>
    if key c > best then bestIdxAux key rest (key c) idx (idx + 1)
    else bestIdxAux key rest best bi (idx + 1)

def bestIdx (key : MmrCand → ℚ) : List MmrCand → Nat
  | [] => 0
  | c :: rest => bestIdxAux key rest (key c) 0 1

/-- The greedy selection loop of `_search_mmr`: while candidates remain
and fewer than `limit` are selected, move the argmax candidate
(`remaining.pop(best_idx)`) to the end of the selected list. -/
def mmrLoop (sim : List ℚ → List ℚ → ℚ) (lam : ℚ) (limit : Nat) :
    List MmrCand → List MmrCand → List MmrCand
  | [], selected => selected
  | c :: rest, selected =>
    if limit ≤ selected.length then selected
    else
      let i := bestIdx (mmrScore lam sim selected) (c :: rest)
      mmrLoop sim lam limit ((c :: rest).eraseIdx i)
        (selected ++ [((c :: rest).get? i).getD default])
  termination_by remaining _ => remaining.length
  decreasing_by
    have haux : ∀ (key : MmrCand → ℚ) (l : List MmrCand) (best : ℚ) (bi idx : Nat),
        bi < idx → bestIdxAux key l best bi idx < idx + l.length := by
      intro key l
      induction l with
      | nil => intro best bi idx h; simpa [bestIdxAux] using h
      | cons x xs ih =>
        intro best bi idx h
        rw [bestIdxAux]
        simp only [List.length_cons]
        by_cases hx : key x > best
        · simp only [hx, if_true]
          have := ih (key x) idx (idx + 1) (Nat.lt_succ_self idx)
          omega
        · simp only [hx, if_false]
          have := ih best bi (idx + 1) (Nat.lt_succ_of_lt h)
          omega
    have hlt : bestIdx (mmrScore lam sim selected) (c :: rest) < (c :: rest).length := by
      rw [bestIdx]
      have := haux (mmrScore lam sim selected) rest
        (mmrScore lam sim selected c) 0 1 Nat.zero_lt_one
      simpa [Nat.add_comm] using this
    rw [List.length_eraseIdx, if_pos hlt]
    simp only [List.length_cons]
    omega

/-- Embedding of the MMR re-ranking section of `SearchService._search_mmr`
(from `if len(results) > 0:` on): seed with the first over-fetched
candidate, then select greedily by the MMR objective. -/
def searchMmr (sim : List ℚ → List ℚ → ℚ) (lam : ℚ) (limit : Nat)
    (results : List MmrCand) : List MmrCand :=
  match results with
  | [] => []
  | r0 :: rest => mmrLoop sim lam limit rest [r0]

/-- The similarity of a candidate to the seed, exactly as the MMR
objective computes its max-similarity term in the second selection round
(when the selected list is the seed alone): the candidate's vector
against the seed's vector (or the zero vector), and `0` for a candidate
without a vector. -/
def seedSim (sim : List ℚ → List ℚ → ℚ) (r0 c : MmrCand) : ℚ :=
  match c.vector with
  | some v => maxSimTo sim v [r0]
  | none => 0

end SearchService

namespace Fixtures

/-!
Concrete inputs used by the counterexamples and the witnesses.
-/

/-- A human turn with plain string content. -/
def humanMsg (s : String) : ClaudeParser.ClaudeMsg :=
  { sender := "human", content := some (.str s) }

/-- An assistant turn with plain string content. -/
def assistantMsg (s : String) : ClaudeParser.ClaudeMsg :=
  { sender := "assistant", content := some (.str s) }

/-- Two consecutive human turns and nothing else. -/
def convHH : ClaudeParser.ClaudeConv :=
  { messages := [humanMsg "first question", humanMsg "second question"] }

/-- The turn sequence human, assistant, human. -/
def convHAH : ClaudeParser.ClaudeConv :=
  { messages := [humanMsg "hello", assistantMsg "hi there", humanMsg "still there?"] }

/-- A ChatGPT conversation whose user and assistant messages both have
no content parts: root node, a user node, an assistant node. -/
def emptyPartsConv : ChatGPTParser.GConv :=
  { conversation_id := "conv-empty"
    title := "Empty"
    mapping :=
      [("root", { children := ["u"] }),
       ("u", { message := some { author_role := "user" },
               parent := some "root", children := ["a"] }),
       ("a", { message := some { author_role := "assistant" },
               parent := some "u" })] }

/-- A two-node mapping whose parent/child references form a cycle. -/
def cyclicMapping : List (String × ChatGPTParser.GNode) :=
  [("a", { message := some { author_role := "user", parts := [.str "ping"] },
           parent := none, children := ["b"] }),
   ("b", { message := some { author_role := "assistant", parts := [.str "pong"] },
           parent := some "a", children := ["a"] })]

/-- A memory record with non-empty memory text. -/
def memoryItem : ClaudeProjectsParser.PItem :=
  { conversations_memory := some "likes terse answers", account_uuid := "acct-1" }

/-- A project with two attached documents, the second of which has a
whitespace-only body. -/
def projectItem : ClaudeProjectsParser.PItem :=
  { uuid := "p1"
    name := "Research"
    description := "notes"
    prompt_template := "be brief"
    docs := [{ uuid := "d1", filename := "notes.txt", content := "useful notes" },
             { uuid := "d2", filename := "blank.txt", content := "   " }] }

/-- The seed MMR candidate: highest relevance, unit vector `[1, 0]`. -/
def mmrSeed : SearchService.MmrCand :=
  { id := 0, score := 0.9, vector := some [1, 0] }

/-- The second-highest-relevance candidate, with the same unit vector as
the seed (cosine similarity 1 to it). -/
def mmrNearTwin : SearchService.MmrCand :=
  { id := 1, score := 0.8, vector := some [1, 0] }

/-- A lower-relevance candidate orthogonal to the seed (cosine
similarity 0 to it — strictly more dissimilar than `mmrNearTwin`). -/
def mmrOrthogonal : SearchService.MmrCand :=
  { id := 2, score := 0.1, vector := some [0, 1] }

end Fixtures

/-!
Theorems for the claims.
-/

open SearchService

theorem lookupPoint_append {i : Nat} {m : List (Nat × ScoredPoint)} {p : ScoredPoint}
    (h : lookupPoint i m = some p) (l : List (Nat × ScoredPoint)) :
    lookupPoint i (m ++ l) = some p := by
  induction m with
  | nil => simp [lookupPoint] at h
  | cons kv rest ih =>
    obtain ⟨k, q⟩ := kv
    simp only [List.cons_append, lookupPoint] at h ⊢
    by_cases hk : k = i
    · simpa [hk] using h
    · simp only [hk, if_false] at h ⊢
      exact ih h

theorem sparse_fold_preserves (sparse : List ScoredPoint) :
    ∀ (base : List (Nat × ScoredPoint)) (i : Nat) (p : ScoredPoint),
      lookupPoint i base = some p →
      lookupPoint i (sparse.foldl
        (fun m q => if (lookupPoint q.id m).isSome then m else m ++ [(q.id, q)])
        base) = some p := by
  induction sparse with
  | nil => intro base i p h; simpa using h
  | cons q rest ih =>
    intro base i p h
    rw [List.foldl_cons]
    apply ih
    by_cases hq : (lookupPoint q.id base).isSome = true
    · simpa [hq] using h
    · simp only [hq, if_false]
      exact lookupPoint_append h _

/-- C1.  Hybrid fusion: dense and sparse hit lists are merged by record
id with the dense hit kept on an id collision, sorted by score
descending, truncated to the limit.  On the claim's concrete input —
dense `[(1, 0.9), (2, 0.5)]`, sparse `[(2, 0.8), (3, 0.7)]`, limit 2 —
the output is `[(1, 0.9), (3, 0.7)]` and id 2 retains its dense score
`0.5` in the merged dict; in general, an id present among the dense
results keeps its dense hit in the merge, whatever the sparse results
are. -/
theorem hybrid_fusion_merges_prefers_dense :
    (hybridFuse
        [{ id := 1, score := 0.9 }, { id := 2, score := 0.5 }]
        [{ id := 2, score := 0.8 }, { id := 3, score := 0.7 }] 2 =
      [{ id := 1, score := 0.9 }, { id := 3, score := 0.7 }] ∧
     lookupPoint 2 (combineResults
        [{ id := 1, score := 0.9 }, { id := 2, score := 0.5 }]
        [{ id := 2, score := 0.8 }, { id := 3, score := 0.7 }]) =
      some { id := 2, score := 0.5 }) ∧
    ∀ (dense sparse : List ScoredPoint) (i : Nat) (p : ScoredPoint),
      lookupPoint i (dense.foldl dictInsertPoint []) = some p →
      lookupPoint i (combineResults dense sparse) = some p := by
  constructor
  · constructor
    · norm_num [hybridFuse, combineResults, dictInsertPoint, lookupPoint,
        sortByScoreDesc, insertDescByScore]
    · norm_num [combineResults, dictInsertPoint, lookupPoint]
  · intro dense sparse i p h
    rw [combineResults]
    exact sparse_fold_preserves sparse _ i p h

/-- Witness for C1: the dense-preference conjunct applied at the claim's
concrete input — id 2 is bound to its dense hit both before and after
the sparse merge. -/
theorem hybrid_fusion_merges_prefers_dense_witness :
    lookupPoint 2
      ([{ id := 1, score := 0.9 }, { id := 2, score := 0.5 }].foldl
        dictInsertPoint []) = some { id := 2, score := 0.5 } ∧
    lookupPoint 2 (combineResults
        [{ id := 1, score := 0.9 }, { id := 2, score := 0.5 }]
        [{ id := 2, score := 0.8 }, { id := 3, score := 0.7 }]) =
      some { id := 2, score := 0.5 } := by
  have h : lookupPoint 2
      ([{ id := 1, score := 0.9 }, { id := 2, score := 0.5 }].foldl
        dictInsertPoint []) = some { id := 2, score := 0.5 } := by
    norm_num [dictInsertPoint, lookupPoint]
  exact ⟨h, hybrid_fusion_merges_prefers_dense.2 _ _ 2 _ h⟩

open ClaudeParser in
/-- C4 counterexample.  The paired-turn normalizer does not pair by
sender role: on a conversation consisting of two consecutive human
turns — where the claim says the second human turn is skipped and no
human/assistant pair exists — it produces one chunk whose assistant side
is the second human turn. -/
theorem paired_turn_role_claim_cex :
    (parseConversation Fixtures.convHH).map
        (fun c => (c.user_message, c.assistant_message)) =
      [(some "first question", some "second question")] ∧
    Fixtures.convHH.messages.all (fun m => m.sender == "human") = true := by
  constructor <;> rfl

open ClaudeParser in
theorem parsePairsIn_append_last (cid title : String) (x : ClaudeMsg) :
    ∀ (ms : List ClaudeMsg), ms.length % 2 = 0 → ∀ (t : Nat),
      parsePairsIn cid title (ms ++ [x]) t = parsePairsIn cid title ms t
  | [], _, t => by simp [parsePairsIn]
  | [y], h, t => by simp at h
  | y :: z :: rest, h, t => by
    have hr : rest.length % 2 = 0 := by
      simp only [List.length_cons] at h
      omega
    simp only [List.cons_append, parsePairsIn]
    cases createChunkFromMessages y z cid title t with
    | some c =>
      simp only [List.append_eq]
      rw [parsePairsIn_append_last cid title x rest hr (t + 1)]
    | none =>
      simp only [List.append_eq]
      rw [parsePairsIn_append_last cid title x rest hr t]

open ClaudeParser in
/-- C4 amended.  The paired-turn normalizer pairs the turn list
positionally: `messages[2k]` becomes the user side and `messages[2k+1]`
the assistant side, regardless of sender roles; a trailing unpaired turn
is dropped without error (appending one turn to an even-length list
leaves the output unchanged), and the sequence human, assistant, human
yields exactly one chunk. -/
theorem paired_turn_positional_pairing :
    (parseConversation Fixtures.convHAH).length = 1 ∧
    ∀ (cid title : String) (x : ClaudeMsg) (ms : List ClaudeMsg),
      ms.length % 2 = 0 → ∀ (t : Nat),
        parsePairsIn cid title (ms ++ [x]) t = parsePairsIn cid title ms t :=
  ⟨by rfl, fun cid title x ms h t => parsePairsIn_append_last cid title x ms h t⟩

open ClaudeParser in
/-- Witness for C4: dropping the trailing human turn of the concrete
human, assistant, human sequence. -/
theorem paired_turn_positional_pairing_witness :
    parsePairsIn "c" "t"
        ([Fixtures.humanMsg "hello", Fixtures.assistantMsg "hi there"] ++
          [Fixtures.humanMsg "still there?"]) 0 =
      parsePairsIn "c" "t"
        [Fixtures.humanMsg "hello", Fixtures.assistantMsg "hi there"] 0 :=
  paired_turn_positional_pairing.2 "c" "t" (Fixtures.humanMsg "still there?")
    [Fixtures.humanMsg "hello", Fixtures.assistantMsg "hi there"] (by rfl) 0

/-- A chunk is jointly empty when both its message sides are empty
(absent or the empty string). -/
def bothEmpty (c : UChunk JVal) : Bool :=
  msgEmpty c.user_message && msgEmpty c.assistant_message

open ClaudeParser in
theorem createChunk_not_bothEmpty {u a : ClaudeMsg} {cid title : String}
    {t : Nat} {c : UChunk JVal}
    (h : createChunkFromMessages u a cid title t = some c) :
    bothEmpty c = false := by
  rw [createChunkFromMessages] at h
  by_cases hc : (extractMessageContent u == "" || extractMessageContent a == "") = true
  · rw [if_pos hc] at h
    exact absurd h (by simp)
  · rw [if_neg hc] at h
    obtain rfl := Option.some.inj h
    simp only [Bool.or_eq_true, beq_iff_eq] at hc
    push_neg at hc
    simp [bothEmpty, msgEmpty, hc.1]

open ClaudeParser in
theorem parsePairsIn_not_bothEmpty (cid title : String) :
    ∀ (ms : List ClaudeMsg) (t : Nat),
      (parsePairsIn cid title ms t).all (fun c => !bothEmpty c) = true
  | [], _ => by simp [parsePairsIn]
  | [y], _ => by simp [parsePairsIn]
  | y :: z :: rest, t => by
    rw [parsePairsIn]
    cases hc : createChunkFromMessages y z cid title t with
    | some c =>
      simp [List.all_cons, createChunk_not_bothEmpty hc,
        parsePairsIn_not_bothEmpty cid title rest (t + 1)]
    | none => exact parsePairsIn_not_bothEmpty cid title rest t

theorem string_append_ne_empty {s : String} (t : String) (h : s.data ≠ []) :
    ((s ++ t) == "") = false := by
  have hd : (s ++ t).data = s.data ++ t.data := String.data_append s t
  rw [beq_eq_false_iff_ne]
  intro hc
  apply h
  have : (s ++ t).data = [] := by rw [hc]
  rw [hd] at this
  exact (List.append_eq_nil.mp this).1

open ClaudeProjectsParser in
theorem projects_chunks_not_bothEmpty (data : List PItem) :
    (parseExport data).all (fun c => !bothEmpty c) = true := by
  rw [List.all_eq_true]
  intro c hc
  rw [parseExport, List.mem_flatMap] at hc
  obtain ⟨item, _, hmem⟩ := hc
  suffices hne : bothEmpty c = false by simp [hne]
  cases hcm : item.conversations_memory with
  | some memoryContent =>
    rw [hcm] at hmem
    dsimp only at hmem
    rw [createMemoryChunk.eq_def] at hmem
    by_cases hm : memoryContent = ""
    · simp [hm] at hmem
    · rw [if_neg hm] at hmem
      simp only [Option.toList_some, List.mem_singleton] at hmem
      subst hmem
      rfl
  | none =>
    rw [hcm] at hmem
    dsimp only at hmem
    rw [parseProject] at hmem
    rcases List.mem_cons.mp hmem with hp | hd
    · subst hp
      simp only [bothEmpty, createProjectChunk, msgEmpty, Bool.and_eq_false_iff]
      left
      exact string_append_ne_empty _ (by simp)
    · rw [List.mem_filterMap] at hd
      obtain ⟨doc, _, hdoc⟩ := hd
      rw [createDocumentChunk.eq_def] at hdoc
      by_cases hs : ChatGPTParser.pyStrip doc.content = ""
      · simp [hs] at hdoc
      · rw [if_neg hs] at hdoc
        cases hdoc
        simp only [bothEmpty, msgEmpty, Bool.and_eq_false_iff]
        left
        exact string_append_ne_empty _ (by simp)

/-- C3 amended.  The paired-turn normalizer and the multi-entity project
normalizer never emit a chunk whose `user_message` and
`assistant_message` are both empty (the former drops a candidate chunk
when either side is empty, the latter always labels chunks with a
non-empty `user_message`); the tree-structured (ChatGPT) normalizer
performs no such check and can emit a chunk with both sides empty, as
the counterexample shows. -/
theorem normalizers_no_bothEmpty_chunks :
    (∀ (conv : ClaudeParser.ClaudeConv),
      (ClaudeParser.parseConversation conv).all (fun c => !bothEmpty c) = true) ∧
    ∀ (data : List ClaudeProjectsParser.PItem),
      (ClaudeProjectsParser.parseExport data).all (fun c => !bothEmpty c) = true :=
  ⟨fun conv => parsePairsIn_not_bothEmpty conv.id conv.title conv.messages 0,
   projects_chunks_not_bothEmpty⟩

open ChatGPTParser in
/-- C3 counterexample.  The tree-structured (ChatGPT) normalizer emits a
chunk with both `user_message` and `assistant_message` empty: on a
three-node chain root, user, assistant whose user and assistant messages
have no content parts, it returns exactly one chunk and both of its
message sides are the empty string — no empty-chunk drop happens during
that normalization. -/
theorem tree_normalizer_bothEmpty_cex :
    (ChatGPTParser.parseConversation Fixtures.emptyPartsConv).map
        (fun c => (c.user_message, c.assistant_message)) =
      [(some "", some "")] := by
  simp [ChatGPTParser.parseConversation, extractMessagesInOrder, findRoot,
    Fixtures.emptyPartsConv, traverseList, lookupNode, extractMessageData,
    scanStep, multimodalText, pyStrip, joinNl, lookupJ, jTruthy, Option.getD]

open ClaudeProjectsParser in
/-- C8.  The multi-entity project normalizer turns an export holding one
memory record (with non-empty memory text) and one project with two
attached documents — one of which has an empty body after trimming —
into exactly three chunks: the memory chunk, the project-overview chunk
and one document chunk, in that order; the empty-body document yields no
chunk. -/
theorem multi_entity_three_chunks :
    ∀ (mem proj : PItem) (memText : String) (d1 d2 : PDoc),
      mem.conversations_memory = some memText → memText ≠ "" →
      proj.conversations_memory = none →
      proj.docs = [d1, d2] →
      ChatGPTParser.pyStrip d1.content ≠ "" →
      ChatGPTParser.pyStrip d2.content = "" →
      (parseExport [mem, proj]).map (fun c => c.user_message_type) =
        [some "memory_context", some "project_description",
         some "document_reference"] := by
  intro mem proj memText d1 d2 hmem hne hproj hdocs h1 h2
  rw [parseExport]
  simp only [List.flatMap_cons, List.flatMap_nil, List.append_nil, hmem, hproj]
  rw [createMemoryChunk.eq_def, if_neg hne]
  rw [parseProject, hdocs]
  simp only [List.filterMap_cons, List.filterMap_nil]
  rw [createDocumentChunk.eq_def, if_neg h1, createDocumentChunk.eq_def, if_pos h2]
  rfl

open ClaudeProjectsParser in
/-- Witness for C8: the concrete memory record and two-document project
of the fixtures. -/
theorem multi_entity_three_chunks_witness :
    (parseExport [Fixtures.memoryItem, Fixtures.projectItem]).map
        (fun c => c.user_message_type) =
      [some "memory_context", some "project_description",
       some "document_reference"] :=
  multi_entity_three_chunks Fixtures.memoryItem Fixtures.projectItem
    "likes terse answers"
    { uuid := "d1", filename := "notes.txt", content := "useful notes" }
    { uuid := "d2", filename := "blank.txt", content := "   " }
    rfl (by decide) rfl rfl (by decide) (by decide)

open ChatGPTParser in
theorem traverseList_length_bound (mapping : List (String × GNode)) :
    ∀ (work visited : List String) (msgs : List MsgData),
      ((traverseList mapping work visited msgs).1).length ≤
        msgs.length + ((mapping.map Prod.fst).toFinset \ visited.toFinset).card := by
  intro work visited msgs
  induction work, visited, msgs using traverseList.induct mapping with
  | case1 visited msgs => simp [traverseList]
  | case2 nodeId rest visited msgs hv ih =>
    rw [traverseList]
    simp only [dif_pos hv]
    exact ih
  | case3 nodeId rest visited msgs hv hl ih =>
    rw [traverseList]
    simp only [dif_neg hv]
    split
    · exact ih
    · next node heq => rw [hl] at heq; cases heq
  | case4 nodeId rest visited msgs hv node hl msgs' ih =>
    rw [traverseList]
    simp only [dif_neg hv]
    split
    · next heq => rw [hl] at heq; cases heq
    · next node' heq =>
      rw [hl] at heq
      obtain rfl := Option.some.inj heq
      have hkmem : nodeId ∈ (mapping.map Prod.fst).toFinset \ visited.toFinset := by
        rw [Finset.mem_sdiff]
        constructor
        · rw [List.mem_toFinset]
          have hk : ∀ (m : List (String × GNode)), lookupNode m nodeId = some node →
              nodeId ∈ m.map Prod.fst := by
            intro m
            induction m with
            | nil => intro hc; simp [lookupNode] at hc
            | cons p ms ihm =>
              intro hc
              rw [lookupNode] at hc
              by_cases hp : p.1 = nodeId
              · simp [hp]
              · simp only [hp, if_false] at hc
                simp [ihm hc]
          exact hk mapping hl
        · rw [List.mem_toFinset]
          exact hv
      have hcard :
          ((mapping.map Prod.fst).toFinset \ (nodeId :: visited).toFinset).card =
            ((mapping.map Prod.fst).toFinset \ visited.toFinset).card - 1 := by
        rw [List.toFinset_cons, Finset.sdiff_insert, Finset.card_erase_of_mem hkmem]
      have hpos : 1 ≤ ((mapping.map Prod.fst).toFinset \ visited.toFinset).card :=
        Finset.card_pos.mpr ⟨nodeId, hkmem⟩
      have hlen : msgs'.length ≤ msgs.length + 1 := by
        cases hm : node.message with
        | some m => simp [msgs', hm]
        | none => simp [msgs', hm]
      calc ((traverseList mapping (node.children ++ rest) (nodeId :: visited) msgs').1).length
          ≤ msgs'.length +
              ((mapping.map Prod.fst).toFinset \ (nodeId :: visited).toFinset).card := ih
        _ ≤ msgs.length + ((mapping.map Prod.fst).toFinset \ visited.toFinset).card := by
            rw [hcard]
            omega

open ChatGPTParser in
/-- C9.  The depth-first traversal of the node mapping terminates on
every mapping — including cyclic parent/child reference structures — and
visits each node at most once: in general the number of messages it
emits is bounded by the number of mapping keys not yet visited (each
node contributes at most one message, once), and on the concrete
two-node cyclic mapping it returns exactly the two nodes' messages, in
order, and stops. -/
theorem tree_traversal_terminates_visits_once :
    (∀ (mapping : List (String × GNode)) (work visited : List String)
       (msgs : List MsgData),
      ((traverseList mapping work visited msgs).1).length ≤
        msgs.length + ((mapping.map Prod.fst).toFinset \ visited.toFinset).card) ∧
    (traverseList Fixtures.cyclicMapping ["a"] [] []).1.map (fun m => m.content) =
      ["ping", "pong"] := by
  constructor
  · exact traverseList_length_bound
  · simp [Fixtures.cyclicMapping, traverseList, lookupNode, extractMessageData,
      multimodalText, pyStrip, joinNl, jTruthy, pyStr]

open Registry in
theorem detectFirstPass_eq_find (fileExt : String) :
    ∀ (entries : List RegEntry),
      detectFirstPass fileExt entries =
        entries.find? (fun e => decide (fileExt ∈ e.extensions) && e.validates)
  | [] => rfl
  | e :: rest => by
    rw [detectFirstPass]
    by_cases hm : fileExt ∈ e.extensions ∧ e.validates = true
    · rw [if_pos hm, List.find?_cons_of_pos]
      simp [hm.1, hm.2]
    · rw [if_neg hm, List.find?_cons_of_neg, detectFirstPass_eq_find fileExt rest]
      simp only [Bool.and_eq_true, decide_eq_true_eq]
      exact hm

open Registry in
theorem detectFallback_eq_find :
    ∀ (entries : List RegEntry),
      detectFallback entries = entries.find? (fun e => e.validates)
  | [] => rfl
  | e :: rest => by
    rw [detectFallback]
    by_cases hv : e.validates = true
    · rw [if_pos hv, List.find?_cons_of_pos _ hv]
    · rw [if_neg hv, List.find?_cons_of_neg _ (by simpa using hv),
        detectFallback_eq_find rest]

open Registry in
/-- C6.  Format detection tries, in registration order, only the
normalizers whose declared extension set contains the file extension,
returning the first whose validation succeeds; when no extension-matching
normalizer validates it falls back to the first validating normalizer of
any extension; and it raises the error (returns no normalizer) exactly
when no registered normalizer validates the file. -/
theorem format_detection_contract :
    ∀ (entries : List RegEntry) (fileExt : String),
      (detectParser entries fileExt = .error "No suitable parser found" ↔
        ∀ e ∈ entries, e.validates = false) ∧
      (∀ e : RegEntry,
        entries.find? (fun e => decide (fileExt ∈ e.extensions) && e.validates) =
            some e →
          detectParser entries fileExt = .ok e) ∧
      (entries.find? (fun e => decide (fileExt ∈ e.extensions) && e.validates) =
          none →
        ∀ e : RegEntry, entries.find? (fun e => e.validates) = some e →
          detectParser entries fileExt = .ok e) := by
  intro entries fileExt
  refine ⟨?_, ?_, ?_⟩
  · constructor
    · intro h e he
      rw [detectParser] at h
      cases h1 : detectFirstPass fileExt entries with
      | some e' => rw [h1] at h; cases h
      | none =>
        rw [h1] at h
        cases h2 : detectFallback entries with
        | some e' => rw [h2] at h; cases h
        | none =>
          rw [detectFallback_eq_find, List.find?_eq_none] at h2
          simpa using h2 e he
    · intro h
      rw [detectParser]
      have h1 : detectFirstPass fileExt entries = none := by
        rw [detectFirstPass_eq_find, List.find?_eq_none]
        intro e he
        simp [h e he]
      have h2 : detectFallback entries = none := by
        rw [detectFallback_eq_find, List.find?_eq_none]
        intro e he
        simp [h e he]
      rw [h1, h2]
  · intro e hfind
    rw [detectParser, detectFirstPass_eq_find, hfind]
  · intro hnone e hfind
    rw [detectParser, detectFirstPass_eq_find, hnone, detectFallback_eq_find, hfind]

open Registry in
/-- Witness for C6: a two-entry registry where only the second entry's
extensions match the file; it is found by the extension-guided pass. -/
theorem format_detection_contract_witness :
    detectParser
        [{ platform := "chatgpt", extensions := [".json"], validates := true },
         { platform := "claude", extensions := [".txt"], validates := true }]
        ".txt" =
      .ok { platform := "claude", extensions := [".txt"], validates := true } :=
  (format_detection_contract
      [{ platform := "chatgpt", extensions := [".json"], validates := true },
       { platform := "claude", extensions := [".txt"], validates := true }]
      ".txt").2.1
    { platform := "claude", extensions := [".txt"], validates := true } (by rfl)

namespace UniversalFormat

variable {V : Type} [DecidableEq V]

theorem lookupKey_append {k : List (String × V)} {m : List (List (String × V) × Nat)}
    {r : Nat} (h : lookupKey k m = some r) (m₂ : List (List (String × V) × Nat)) :
    lookupKey k (m ++ m₂) = some r := by
  induction m with
  | nil => simp [lookupKey] at h
  | cons p rest ih =>
    obtain ⟨k', r'⟩ := p
    simp only [List.cons_append, lookupKey] at h ⊢
    by_cases hk : k' = k
    · simpa [hk] using h
    · simp only [hk, if_false] at h ⊢
      exact ih h

theorem lookupKey_append_self {k : List (String × V)}
    {m : List (List (String × V) × Nat)} (h : lookupKey k m = none) (r : Nat) :
    lookupKey k (m ++ [(k, r)]) = some r := by
  induction m with
  | nil => simp [lookupKey]
  | cons p rest ih =>
    obtain ⟨k', r'⟩ := p
    simp only [lookupKey] at h
    by_cases hk : k' = k
    · simp [hk] at h
    · simp only [List.cons_append, lookupKey, hk, if_false] at h ⊢
      exact ih h

theorem lookupKey_mem {k : List (String × V)} {m : List (List (String × V) × Nat)}
    {r : Nat} (h : lookupKey k m = some r) : (k, r) ∈ m := by
  induction m with
  | nil => simp [lookupKey] at h
  | cons p rest ih =>
    obtain ⟨k', r'⟩ := p
    rw [lookupKey] at h
    by_cases hk : k' = k
    · rw [if_pos hk] at h
      obtain rfl := Option.some.inj h
      subst hk
      exact List.mem_cons_self _ _
    · rw [if_neg hk] at h
      exact List.mem_cons_of_mem _ (ih h)

/-- The interning-state invariant: every interned reference is below the
counter, and the references are pairwise distinct. -/
def InternInv (st : List (List (String × V) × Nat) × Nat) : Prop :=
  (∀ p ∈ st.1, p.2 < st.2) ∧ (st.1.map Prod.snd).Nodup

theorem internStep_inv {st : List (List (String × V) × Nat) × Nat}
    (h : InternInv st) (c : UChunk V) : InternInv (internStep st c) := by
  rw [internStep]
  by_cases he : c.ai_interpretations.isEmpty = true
  · simpa [he] using h
  · rw [if_neg he]
    cases hk : lookupKey c.ai_interpretations st.1 with
    | some r => exact h
    | none =>
      obtain ⟨hlt, hnd⟩ := h
      refine ⟨?_, ?_⟩
      · intro p hp
        rcases List.mem_append.mp hp with hp | hp
        · exact Nat.lt_succ_of_lt (hlt p hp)
        · simp only [List.mem_singleton] at hp
          subst hp
          exact Nat.lt_succ_self _
      · rw [List.map_append, List.nodup_append]
        refine ⟨hnd, List.nodup_singleton _, ?_⟩
        intro r hr hr'
        simp only [List.map_cons, List.map_nil, List.mem_singleton] at hr'
        subst hr'
        obtain ⟨p, hp, hpr⟩ := List.mem_map.mp hr
        exact absurd (hpr ▸ hlt p hp) (Nat.lt_irrefl _)

theorem internFold_inv (cs : List (UChunk V)) :
    ∀ (st : List (List (String × V) × Nat) × Nat), InternInv st →
      InternInv (cs.foldl internStep st) := by
  induction cs with
  | nil => intro st h; simpa using h
  | cons c rest ih =>
    intro st h
    rw [List.foldl_cons]
    exact ih _ (internStep_inv h c)

theorem internStep_lookup_mono {k : List (String × V)} {r : Nat}
    {st : List (List (String × V) × Nat) × Nat}
    (h : lookupKey k st.1 = some r) (c : UChunk V) :
    lookupKey k (internStep st c).1 = some r := by
  rw [internStep]
  by_cases he : c.ai_interpretations.isEmpty = true
  · simpa [he] using h
  · rw [if_neg he]
    cases hk : lookupKey c.ai_interpretations st.1 with
    | some r' => exact h
    | none => exact lookupKey_append h _

theorem internFold_lookup_mono (cs : List (UChunk V)) :
    ∀ {k : List (String × V)} {r : Nat}
      (st : List (List (String × V) × Nat) × Nat),
      lookupKey k st.1 = some r →
      lookupKey k ((cs.foldl internStep st)).1 = some r := by
  induction cs with
  | nil => intro k r st h; simpa using h
  | cons c rest ih =>
    intro k r st h
    rw [List.foldl_cons]
    exact ih _ (internStep_lookup_mono h c)

theorem internFold_covers (cs : List (UChunk V)) :
    ∀ (st : List (List (String × V) × Nat) × Nat) (c : UChunk V), c ∈ cs →
      c.ai_interpretations.isEmpty = false →
      ∃ r, lookupKey c.ai_interpretations ((cs.foldl internStep st)).1 = some r := by
  induction cs with
  | nil => intro st c hc; simp at hc
  | cons c0 rest ih =>
    intro st c hc hne
    rw [List.foldl_cons]
    rcases List.mem_cons.mp hc with rfl | hc
    · have hstep : ∃ r, lookupKey c.ai_interpretations (internStep st c).1 = some r := by
        rw [internStep, if_neg (by simp [hne])]
        cases hk : lookupKey c.ai_interpretations st.1 with
        | some r => exact ⟨r, hk⟩
        | none => exact ⟨st.2, lookupKey_append_self hk st.2⟩
      obtain ⟨r, hr⟩ := hstep
      exact ⟨r, internFold_lookup_mono rest _ hr⟩
    · exact ih _ c hc hne

theorem lookupRef_swap {map : List (List (String × V) × Nat)}
    (hnd : (map.map Prod.snd).Nodup) {k : List (String × V)} {r : Nat}
    (hmem : (k, r) ∈ map) :
    lookupRef r (map.map (fun p => (p.2, p.1))) = some k := by
  induction map with
  | nil => simp at hmem
  | cons p rest ih =>
    obtain ⟨k0, r0⟩ := p
    simp only [List.map_cons, List.nodup_cons] at hnd
    simp only [List.map_cons, lookupRef]
    by_cases hr : r0 = r
    · rw [if_pos hr]
      subst hr
      rcases List.mem_cons.mp hmem with h | h
      · obtain ⟨rfl, rfl⟩ := Prod.mk.injEq .. ▸ (Prod.ext_iff.mp h)
        rfl
      · exact absurd (List.mem_map.mpr ⟨(k, r0), h, rfl⟩) hnd.1
    · rw [if_neg hr]
      rcases List.mem_cons.mp hmem with h | h
      · exact absurd (congrArg Prod.snd h).symm hr
      · exact ih hnd.2 h

theorem loadChunk_none (store : List (Nat × List (String × V))) (b : UChunk V) :
    loadChunk store { base := b } = b := rfl

theorem loadChunk_some (store : List (Nat × List (String × V))) (b : UChunk V)
    (r : Nat) :
    loadChunk store { base := b, ai_interpretation_ref := some r } =
      { b with ai_interpretations := (lookupRef r store).getD [] } := rfl

theorem loadChunk_saveChunk (coll : List (UChunk V)) {c : UChunk V} (hc : c ∈ coll) :
    loadChunk ((buildInterpMap coll).1.map (fun p => (p.2, p.1)))
      (saveChunk (buildInterpMap coll).1 c) = c := by
  by_cases he : c.ai_interpretations.isEmpty = true
  · rw [saveChunk, if_pos he, loadChunk_none]
  · have hne : c.ai_interpretations.isEmpty = false := by
      simpa using he
    obtain ⟨r, hr⟩ := internFold_covers coll ([], 0) c hc hne
    have hr' : lookupKey c.ai_interpretations (buildInterpMap coll).1 = some r := hr
    have hinv : InternInv (buildInterpMap coll) :=
      internFold_inv coll ([], 0) ⟨by simp, by simp⟩
    have hmem : (c.ai_interpretations, r) ∈ (buildInterpMap coll).1 :=
      lookupKey_mem hr'
    have hswap := lookupRef_swap hinv.2 hmem
    rw [saveChunk, if_neg he, hr', loadChunk_some, hswap]
    rfl

/-- C5.  Serialization round trip: saving a Record Collection with
interpretation deduplication enabled and loading the result yields the
same chunk list — in particular every chunk's `ai_interpretations`
equals its pre-save value, both for chunks that carry interpretations
and for chunks that carry none. -/
theorem save_load_roundtrip (V : Type) [DecidableEq V] (coll : List (UChunk V)) :
    loadFromJson (saveToJson coll) = coll := by
  rw [saveToJson, loadFromJson]
  simp only [List.map_map]
  have hmapid : ∀ (f : UChunk V → UChunk V) (l : List (UChunk V)),
      (∀ a ∈ l, f a = a) → l.map f = l := by
    intro f l
    induction l with
    | nil => intro _; rfl
    | cons a rest ih =>
      intro h
      rw [List.map_cons, h a (List.mem_cons_self a rest),
        ih (fun b hb => h b (List.mem_cons_of_mem a hb))]
  exact hmapid _ coll (fun c hc => loadChunk_saveChunk coll hc)

/-- Witness for C5 (no propositional hypothesis to discharge): the round
trip on a concrete two-chunk collection — one chunk with
interpretations, one without. -/
theorem save_load_roundtrip_witness :
    loadFromJson (saveToJson
      [({ conversation_id := "c1", platform := "claude", timestamp := .now,
          ai_interpretations := [("thinking", "...")] } : UChunk String),
       { conversation_id := "c2", platform := "claude", timestamp := .now }]) =
      [({ conversation_id := "c1", platform := "claude", timestamp := .now,
          ai_interpretations := [("thinking", "...")] } : UChunk String),
       { conversation_id := "c2", platform := "claude", timestamp := .now }] :=
  save_load_roundtrip String _

end UniversalFormat

open SearchService in
/-- C7.  Date-filter parsing: the ISO string `2024-01-01T00:00:00Z` and
the numeric string `1704067200` map to the same epoch-seconds value (the
`Z` suffix is normalized to `+00:00`, a missing timezone is assumed
UTC), and every input that is neither numeric nor a parseable ISO-8601
string raises a `ValueError` naming the offending value. -/
theorem date_filter_parsing :
    parseDate "2024-01-01T00:00:00Z" = .ok 1704067200 ∧
    parseDate "1704067200" = .ok 1704067200 ∧
    ∀ (s : String), parsePyFloat s = none →
      fromisoformat (normalizeZ s) = none →
      parseDate s = .error ("Invalid date value: " ++ s) := by
  refine ⟨?_, ?_, ?_⟩
  · have h1 : parsePyFloat "2024-01-01T00:00:00Z" = none := by decide
    have h2 : fromisoformat (normalizeZ "2024-01-01T00:00:00Z") =
        some { year := 2024, month := 1, day := 1, utcOffset := some 0 } := by
      decide
    rw [parseDate, h1, h2]
    norm_num [pyTimestamp, epochDays, civilDays, daysBeforeMonth, isLeap]
  · have h1 : parsePyFloat "1704067200" = some 1704067200 := by decide
    rw [parseDate, h1]
  · intro s h1 h2
    rw [parseDate, h1, h2]

open SearchService in
/-- Witness for C7: `not-a-date` is neither numeric nor ISO-8601 and
raises the `ValueError` that names it. -/
theorem date_filter_parsing_witness :
    parseDate "not-a-date" = .error ("Invalid date value: " ++ "not-a-date") :=
  date_filter_parsing.2.2 "not-a-date" (by decide) (by decide)

open SearchService in
theorem splitFirstColon_append {k : List Char} (v : List Char) (h : ':' ∉ k) :
    splitFirstColon (k ++ ':' :: v) = some (k, v) := by
  induction k with
  | nil => simp [splitFirstColon]
  | cons c rest ih =>
    have hc : ¬(c = ':') := fun hx => h (hx ▸ List.mem_cons_self c rest)
    have hrest : ':' ∉ rest := fun hx => h (List.mem_cons_of_mem c hx)
    rw [List.cons_append, splitFirstColon, if_neg hc, ih hrest]

open SearchService in
theorem splitFirstColon_none {l : List Char} (h : ':' ∉ l) :
    splitFirstColon l = none := by
  induction l with
  | nil => rfl
  | cons c rest ih =>
    have hc : ¬(c = ':') := fun hx => h (hx ▸ List.mem_cons_self c rest)
    have hrest : ':' ∉ rest := fun hx => h (List.mem_cons_of_mem c hx)
    rw [splitFirstColon, if_neg hc, ih hrest]

open SearchService in
/-- C10.  The filter builder splits `metadata_filter` at the first colon
only — the key is everything before the first colon and the value,
colons included, everything after it, matched against the namespaced
`payload.` key — and a non-empty `metadata_filter` without any colon
makes the builder raise the tuple-unpacking `ValueError` (so no filter,
and hence no Index Service query, is produced). -/
theorem metadata_filter_first_colon :
    (∀ (k v : String), ':' ∉ k.data →
      buildFilter { metadata_filter := some (k ++ ":" ++ v) } =
        .ok (some [.matchStr ("payload." ++ k) v])) ∧
    (∀ (s : String), s ≠ "" → ':' ∉ s.data →
      buildFilter { metadata_filter := some s } =
        .error "not enough values to unpack (expected 2, got 1)") := by
  constructor
  · intro k v hk
    have hdata : (k ++ ":" ++ v).data = k.data ++ ':' :: v.data := by
      rw [String.data_append, String.data_append]
      simp [List.append_assoc]
    have hne : (k ++ ":" ++ v) ≠ "" := by
      intro hc
      have : (k ++ ":" ++ v).data = [] := by rw [hc]
      rw [hdata] at this
      exact absurd (List.append_eq_nil.mp this).2 (by simp)
    have hsplit : splitFirstColon (k.data ++ ':' :: v.data) = some (k.data, v.data) :=
      splitFirstColon_append v.data hk
    have hmk : ∀ s : String, ({ data := s.data } : String) = s := fun _ => rfl
    simp [buildFilter, hne, hdata, hsplit, hmk, Except.bind]
    rfl
  · intro s hne hnc
    simp [buildFilter, hne, splitFirstColon_none hnc, Except.bind]

open SearchService in
/-- Witness for C10: the key `topic` with the colon-holding value
`ml:nlp` is split at the first colon only. -/
theorem metadata_filter_first_colon_witness :
    buildFilter { metadata_filter := some ("topic" ++ ":" ++ "ml:nlp") } =
      .ok (some [.matchStr ("payload." ++ "topic") "ml:nlp"]) :=
  metadata_filter_first_colon.1 "topic" "ml:nlp" (by decide)

open SearchService in
theorem bestIdxAux_lt_len (key : MmrCand → ℚ) :
    ∀ (l : List MmrCand) (best : ℚ) (bi idx : Nat), bi < idx →
      bestIdxAux key l best bi idx < idx + l.length := by
  intro l
  induction l with
  | nil => intro best bi idx h; simpa [bestIdxAux] using h
  | cons x xs ih =>
    intro best bi idx h
    rw [bestIdxAux]
    simp only [List.length_cons]
    by_cases hx : key x > best
    · simp only [hx, if_true]
      have := ih (key x) idx (idx + 1) (Nat.lt_succ_self idx)
      omega
    · simp only [hx, if_false]
      have := ih best bi (idx + 1) (Nat.lt_succ_of_lt h)
      omega

open SearchService in
theorem bestIdx_lt_len (key : MmrCand → ℚ) (c : MmrCand) (rest : List MmrCand) :
    bestIdx key (c :: rest) < (c :: rest).length := by
  rw [bestIdx]
  have := bestIdxAux_lt_len key rest (key c) 0 1 Nat.zero_lt_one
  simpa [Nat.add_comm] using this

open SearchService in
theorem bestIdxAux_eq_or_ge (key : MmrCand → ℚ) :
    ∀ (l : List MmrCand) (best : ℚ) (bi idx : Nat),
      bestIdxAux key l best bi idx = bi ∨ idx ≤ bestIdxAux key l best bi idx := by
  intro l
  induction l with
  | nil => intro best bi idx; left; rfl
  | cons x xs ih =>
    intro best bi idx
    rw [bestIdxAux]
    by_cases hx : key x > best
    · simp only [hx, if_true]
      rcases ih (key x) idx (idx + 1) with h | h
      · right; omega
      · right; omega
    · simp only [hx, if_false]
      rcases ih best bi (idx + 1) with h | h
      · left; exact h
      · right; omega

open SearchService in
theorem bestIdxAux_ne_of_beaten (key : MmrCand → ℚ) :
    ∀ (l : List MmrCand) (best : ℚ) (bi idx : Nat), bi < idx →
      (∃ c ∈ l, key c > best) → bestIdxAux key l best bi idx ≠ bi := by
  intro l
  induction l with
  | nil => intro best bi idx _ h; simp at h
  | cons x xs ih =>
    intro best bi idx hbi hex
    rw [bestIdxAux]
    by_cases hx : key x > best
    · simp only [hx, if_true]
      rcases bestIdxAux_eq_or_ge key xs (key x) idx (idx + 1) with h | h
      · omega
      · omega
    · simp only [hx, if_false]
      obtain ⟨c, hc, hgt⟩ := hex
      rcases List.mem_cons.mp hc with rfl | hc
      · exact absurd hgt hx
      · exact ih best bi (idx + 1) (Nat.lt_succ_of_lt hbi) ⟨c, hc, hgt⟩

open SearchService in
theorem mmrLoop_get?_of_lt (sim : List ℚ → List ℚ → ℚ) (lam : ℚ) (limit : Nat) :
    ∀ (rem sel : List MmrCand) (n : Nat), n < sel.length →
      (mmrLoop sim lam limit rem sel).get? n = sel.get? n := by
  intro rem sel
  induction rem, sel using mmrLoop.induct sim lam limit with
  | case1 sel => intro n hn; rw [mmrLoop]
  | case2 c rest sel hstop => intro n hn; rw [mmrLoop, if_pos hstop]
  | case3 c rest sel hstop i ih =>
    intro n hn
    rw [mmrLoop, if_neg hstop]
    have hlen : n < (sel ++ [((c :: rest).get? i).getD default]).length := by
      rw [List.length_append]
      omega
    rw [ih n hlen, List.get?_append hn]

open SearchService in
/-- C2 counterexample.  With diversity weight λ = 1 the MMR objective
`λ·relevance − (1−λ)·max_similarity` degenerates to pure relevance, not
pure diversity: on a candidate list where the lower-relevance candidate
orthogonal to the seed exists (strictly more dissimilar than the
second-highest-relevance candidate, which duplicates the seed's vector),
the second selection still is the second-highest-relevance candidate. -/
theorem mmr_lambda_one_cex :
    (searchMmr dotProduct 1 2
        [Fixtures.mmrSeed, Fixtures.mmrNearTwin, Fixtures.mmrOrthogonal]).get? 1 =
      some Fixtures.mmrNearTwin ∧
    Fixtures.mmrOrthogonal.score < Fixtures.mmrNearTwin.score ∧
    seedSim dotProduct Fixtures.mmrSeed Fixtures.mmrOrthogonal <
      seedSim dotProduct Fixtures.mmrSeed Fixtures.mmrNearTwin := by
  refine ⟨?_, by norm_num [Fixtures.mmrOrthogonal, Fixtures.mmrNearTwin], ?_⟩
  · norm_num [searchMmr, mmrLoop, bestIdx, bestIdxAux, mmrScore, maxSimTo,
      dotProduct, Fixtures.mmrSeed, Fixtures.mmrNearTwin, Fixtures.mmrOrthogonal]
  · norm_num [seedSim, maxSimTo, dotProduct, Fixtures.mmrSeed,
      Fixtures.mmrNearTwin, Fixtures.mmrOrthogonal]

open SearchService in
/-- C2 amended.  Pure diversity is λ = 0 (the code's objective weights
relevance by λ, not diversity): with λ = 0, for every candidate list in
which some candidate is strictly more dissimilar to the seed than the
second-highest-relevance candidate is, the second element selected is
never the second-highest-relevance candidate.  (Note the dispatcher maps
a requested diversity weight of 0 — falsy in Python — to the default
0.5, so λ = 0 arises only as the algorithm's parameter.) -/
theorem mmr_pure_diversity_second_pick :
    ∀ (sim : List ℚ → List ℚ → ℚ) (limit : Nat) (r0 r1 : MmrCand)
      (rest : List MmrCand),
      2 ≤ limit →
      (∀ c ∈ rest, c.score < r1.score) →
      (∃ c ∈ rest, seedSim sim r0 c < seedSim sim r0 r1) →
      (searchMmr sim 0 limit (r0 :: r1 :: rest)).get? 1 ≠ some r1 := by
  intro sim limit r0 r1 rest hlim hscore hex
  obtain ⟨c, hc, hsim⟩ := hex
  have hkey : ∀ d : MmrCand, mmrScore 0 sim [r0] d = -(seedSim sim r0 d) := by
    intro d
    rw [mmrScore, seedSim]
    cases d.vector with
    | some v => norm_num
    | none => norm_num
  have hgt : mmrScore 0 sim [r0] c > mmrScore 0 sim [r0] r1 := by
    rw [hkey, hkey]
    exact neg_lt_neg hsim
  show (mmrLoop sim 0 limit (r1 :: rest) [r0]).get? 1 ≠ some r1
  rw [mmrLoop, if_neg (by simp; omega)]
  have hne0 : bestIdx (mmrScore 0 sim [r0]) (r1 :: rest) ≠ 0 := by
    rw [bestIdx]
    exact bestIdxAux_ne_of_beaten (mmrScore 0 sim [r0]) rest
      (mmrScore 0 sim [r0] r1) 0 1 Nat.zero_lt_one ⟨c, hc, hgt⟩
  have hltl : bestIdx (mmrScore 0 sim [r0]) (r1 :: rest) < (r1 :: rest).length :=
    bestIdx_lt_len _ _ _
  obtain ⟨j, hj⟩ := Nat.exists_eq_succ_of_ne_zero hne0
  rw [hj] at hltl ⊢
  have hjlt : j < rest.length := by
    simpa [Nat.succ_lt_succ_iff] using hltl
  have hget : (r1 :: rest).get? (j + 1) = some (rest.get ⟨j, hjlt⟩) := by
    rw [List.get?_cons_succ]
    exact List.get?_eq_get hjlt
  rw [mmrLoop_get?_of_lt sim 0 limit _ _ 1 (by simp)]
  rw [hget]
  simp only [Option.getD_some]
  have hmem : rest.get ⟨j, hjlt⟩ ∈ rest := List.get_mem rest j hjlt
  have hlt := hscore _ hmem
  intro hcontra
  rw [show ([r0] ++ [rest.get ⟨j, hjlt⟩]).get? 1 = some (rest.get ⟨j, hjlt⟩) from rfl]
    at hcontra
  obtain rfl := Option.some.inj hcontra
  exact absurd hlt (lt_irrefl _)

open SearchService in
/-- Witness for C2 amended: with λ = 0 on the concrete candidates, the
second-highest-relevance near-twin of the seed is not picked second. -/
theorem mmr_pure_diversity_second_pick_witness :
    (searchMmr dotProduct 0 2
        [Fixtures.mmrSeed, Fixtures.mmrNearTwin, Fixtures.mmrOrthogonal]).get? 1 ≠
      some Fixtures.mmrNearTwin :=
  mmr_pure_diversity_second_pick dotProduct 2 Fixtures.mmrSeed
    Fixtures.mmrNearTwin [Fixtures.mmrOrthogonal] (le_refl 2)
    (by
      intro c hc
      simp only [List.mem_singleton] at hc
      subst hc
      norm_num [Fixtures.mmrOrthogonal, Fixtures.mmrNearTwin])
    ⟨Fixtures.mmrOrthogonal, List.mem_singleton_self _, by
      norm_num [seedSim, maxSimTo, dotProduct, Fixtures.mmrSeed,
        Fixtures.mmrNearTwin, Fixtures.mmrOrthogonal]⟩

end WillGpt
